import Mathlib

/-!
Verification of the resume-tailor core pipeline (app.py): the tolerant
structured parser `parse_json_response`, the multi-tier scraper
`scrape_job_url` with its LinkedIn job-id extraction, and the renderer
`render_resume_html` with its change-marker transform.

Strings are modelled as lists of characters (`Str`).  External library
effects (HTTP fetches, BeautifulSoup text extraction) are supplied as
explicit environment values; the repository's own control flow, string
building, thresholds and regular-expression logic are embedded exactly.
-/

/-- Strings are modelled as lists of characters. -/
abbrev Str := List Char

/-- Coerce a Lean string literal into the character-list model. -/
def lit (s : String) : Str := s.data

/-- ASCII whitespace as stripped by Python str.strip and matched by the
regex class backslash-s on ASCII text: space, tab, newline, carriage
return, vertical tab, form feed.  (Non-ASCII Unicode space code points
are outside the modelled scope.) -/
def isPyWs (c : Char) : Bool :=
  c = ' ' || c = '\t' || c = '\n' || c = '\x0d' || c = '\x0b' || c = '\x0c'

/-- Whitespace skipped by the json module between tokens: exactly
space, tab, newline, carriage return. -/
def isJsonWs (c : Char) : Bool :=
  c = ' ' || c = '\t' || c = '\n' || c = '\x0d'

/-- Model of str.strip(): remove leading and trailing whitespace. -/
def pyStrip (s : Str) : Str :=
  ((s.dropWhile isPyWs).reverse.dropWhile isPyWs).reverse

/-- Does pat occur as a leading segment of s (str.startswith). -/
def startsList : Str → Str → Bool
  | [], _ => true
  | _ :: _, [] => false
  | p :: ps, c :: cs => p = c && startsList ps cs

/-- Index of the first occurrence of pat inside s, if any
(Python str.find / the start of the leftmost regex-literal match). -/
def findSub : Str → Str → Option Nat
  | [], pat => if startsList pat [] then some 0 else none
  | c :: cs, pat =>
    if startsList pat (c :: cs) then some 0
    else (findSub cs pat).map (· + 1)

/-- Substring containment, Python `pat in s`. -/
def containsSub (s pat : Str) : Bool := (findSub s pat).isSome

/-- Model of str.replace for a two-character pattern p q (the program
only ever replaces the marker delimiters, two identical brackets): scan
left to right, replacing non-overlapping occurrences. -/
def replace2 (p q : Char) (rep : Str) : Str → Str
  | [] => []
  | [c] => [c]
  | c :: d :: rest =>
    if c = p ∧ d = q then rep ++ replace2 p q rep rest
    else c :: replace2 p q rep (d :: rest)

/-- Decimal digit character. -/
def digitChar (n : Nat) : Char := Char.ofNat (48 + n)

/-- Decimal rendering of a natural number. -/
def natToStr (n : Nat) : Str :=
  if h : n < 10 then [digitChar n]
  else natToStr (n / 10) ++ [digitChar (n % 10)]
termination_by n
decreasing_by
  exact Nat.div_lt_self (by omega) (by omega)

/-- Decimal rendering of an integer, as produced by Python str(int). -/
def intToStr (n : Int) : Str :=
  if n < 0 then '-' :: natToStr n.natAbs else natToStr n.toNat

/-- Values produced by json.loads.  Integers are exact; non-integral
numbers are kept as their source token (the program never performs
arithmetic on them, it only reinterpolates them into text). -/
inductive PyJson where
  | null
  | boolVal (b : Bool)
  | intVal (n : Int)
  | floatVal (tok : Str)
  | strVal (s : Str)
  | arrVal (xs : List PyJson)
  | objVal (kvs : List (Str × PyJson))

/-- Lookup in a parsed mapping, Python dict.get(key). -/
def dictGet : List (Str × PyJson) → Str → Option PyJson
  | [], _ => none
  | (k, v) :: rest, key => if k = key then some v else dictGet rest key

/-- Lookup with a default, Python dict.get(key, default). -/
def dictGetD (kvs : List (Str × PyJson)) (key : Str) (d : PyJson) : PyJson :=
  (dictGet kvs key).getD d

/-- Dict insertion with CPython semantics: an existing key keeps its
position and receives the new value, a new key is appended. -/
def dictSet : List (Str × PyJson) → Str → PyJson → List (Str × PyJson)
  | [], k, v => [(k, v)]
  | (k', v') :: rest, k, v =>
    if k' = k then (k', v) :: rest else (k', v') :: dictSet rest k v

/-- Value of a hexadecimal digit character. -/
def hexVal (c : Char) : Option Nat :=
  if '0' ≤ c ∧ c ≤ '9' then some (c.toNat - 48)
  else if 'a' ≤ c ∧ c ≤ 'f' then some (c.toNat - 87)
  else if 'A' ≤ c ∧ c ≤ 'F' then some (c.toNat - 70)
  else none

/-- Four hex digits of a backslash-u escape. -/
def parseHex4 : Str → Option (Nat × Str)
  | a :: b :: c :: d :: rest => do
    let ha ← hexVal a
    let hb ← hexVal b
    let hc ← hexVal c
    let hd ← hexVal d
    pure (((ha * 16 + hb) * 16 + hc) * 16 + hd, rest)
  | _ => none

/-- Body of a JSON string literal after the opening quote, in the json
module's strict mode: raw control characters are rejected, the
recognized escapes are the eight simple ones plus backslash-u.  A valid
surrogate pair combines into one scalar; a lone surrogate escape (which
CPython would keep as a lone surrogate code unit) has no counterpart
among Lean characters and is rejected — such inputs are outside the
modelled scope. -/
def parseJStr : Nat → Str → Str → Option (Str × Str)
  | 0, _, _ => none
  | _ + 1, acc, '"' :: rest => some (acc.reverse, rest)
  | fuel + 1, acc, '\\' :: esc :: rest =>
    match esc with
    | '"' => parseJStr fuel ('"' :: acc) rest
    | '\\' => parseJStr fuel ('\\' :: acc) rest
    | '/' => parseJStr fuel ('/' :: acc) rest
    | 'b' => parseJStr fuel ('\x08' :: acc) rest
    | 'f' => parseJStr fuel ('\x0c' :: acc) rest
    | 'n' => parseJStr fuel ('\n' :: acc) rest
    | 'r' => parseJStr fuel ('\x0d' :: acc) rest
    | 't' => parseJStr fuel ('\t' :: acc) rest
    | 'u' =>
      match parseHex4 rest with
      | some (n, rest') =>
        if 0xD800 ≤ n ∧ n ≤ 0xDBFF then
          match rest' with
          | '\\' :: 'u' :: rest'' =>
            match parseHex4 rest'' with
            | some (m, rest3) =>
              if 0xDC00 ≤ m ∧ m ≤ 0xDFFF then
                parseJStr fuel
                  (Char.ofNat (0x10000 + (n - 0xD800) * 0x400 + (m - 0xDC00)) :: acc) rest3
              else none
            | none => none
          | _ => none
        else if 0xDC00 ≤ n ∧ n ≤ 0xDFFF then none
        else parseJStr fuel (Char.ofNat n :: acc) rest'
      | none => none
    | _ => none
  | fuel + 1, acc, c :: rest =>
    if c.toNat < 0x20 then none else parseJStr fuel (c :: acc) rest
  | _, _, [] => none

/-- Greedy run of decimal digits. -/
def takeDigits (s : Str) : Str := s.takeWhile Char.isDigit

/-- Integer value of a digit run. -/
def digitsToNat (ds : Str) : Nat :=
  ds.foldl (fun acc c => acc * 10 + (c.toNat - 48)) 0

/-- JSON number token per the json module's NUMBER_RE: an optional minus,
an integer part without leading zeros, then optional fraction and
exponent; a number with fraction or exponent becomes a float (kept as
its token), otherwise an int. -/
def parseNumber (s : Str) : Option (PyJson × Str) :=
  let (sign, s1) := match s with
    | '-' :: rest => (true, rest)
    | _ => (false, s)
  match s1 with
  | [] => none
  | c :: _ =>
    if ¬ c.isDigit then none
    else if c = '0' && ((s1.drop 1).headD ' ').isDigit then none
    else
      let intPart := takeDigits s1
      let s2 := s1.drop intPart.length
      let (fracPart, s3) := match s2 with
        | '.' :: rest =>
          let ds := takeDigits rest
          if ds = [] then ([], s2) else ('.' :: ds, rest.drop ds.length)
        | _ => ([], s2)
      let (expPart, s4) := match s3 with
        | e :: rest =>
          if e = 'e' ∨ e = 'E' then
            let (esign, rest') := match rest with
              | '+' :: r => (['+'], r)
              | '-' :: r => (['-'], r)
              | _ => (([] : Str), rest)
            let ds := takeDigits rest'
            if ds = [] then (([] : Str), s3)
            else (e :: (esign ++ ds), rest'.drop ds.length)
          else ([], s3)
        | _ => ([], s3)
      let tok := (if sign then ['-'] else []) ++ intPart ++ fracPart ++ expPart
      if fracPart = [] ∧ expPart = [] then
        let v : Int := Int.ofNat (digitsToNat intPart)
        some (PyJson.intVal (if sign then -v else v), s4)
      else
        some (PyJson.floatVal tok, s4)

/-- Skip inter-token JSON whitespace. -/
def skipWsL (s : Str) : Str := s.dropWhile isJsonWs

mutual

/-- One JSON value, dispatching on the first character like the json
module's scanner; called with whitespace already skipped. -/
def parseValue : Nat → Str → Option (PyJson × Str)
  | 0, _ => none
  | fuel + 1, s =>
    match s with
    | '"' :: rest => (parseJStr (rest.length + 1) [] rest).map fun p => (PyJson.strVal p.1, p.2)
    | '{' :: rest =>
      let r := skipWsL rest
      match r with
      | '}' :: rest' => some (PyJson.objVal [], rest')
      | _ => parseObjBody fuel [] r
    | '[' :: rest =>
      let r := skipWsL rest
      match r with
      | ']' :: rest' => some (PyJson.arrVal [], rest')
      | _ => parseArrBody fuel [] r
    | _ =>
      if startsList (lit "null") s then some (PyJson.null, s.drop 4)
      else if startsList (lit "true") s then some (PyJson.boolVal true, s.drop 4)
      else if startsList (lit "false") s then some (PyJson.boolVal false, s.drop 5)
      else
        match parseNumber s with
        | some r => some r
        | none =>
          if startsList (lit "NaN") s then some (PyJson.floatVal (lit "nan"), s.drop 3)
          else if startsList (lit "Infinity") s then some (PyJson.floatVal (lit "inf"), s.drop 8)
          else if startsList (lit "-Infinity") s then some (PyJson.floatVal (lit "-inf"), s.drop 9)
          else none

/-- Members of an object, positioned at a (hoped-for) key; trailing
commas are rejected because a comma always demands another key. -/
def parseObjBody : Nat → List (Str × PyJson) → Str → Option (PyJson × Str)
  | 0, _, _ => none
  | fuel + 1, acc, s =>
    match s with
    | '"' :: rest =>
      match parseJStr (rest.length + 1) [] rest with
      | none => none
      | some (key, r1) =>
        match skipWsL r1 with
        | ':' :: r2 =>
          match parseValue fuel (skipWsL r2) with
          | none => none
          | some (v, r3) =>
            let acc' := dictSet acc key v
            match skipWsL r3 with
            | ',' :: r4 => parseObjBody fuel acc' (skipWsL r4)
            | '}' :: r4 => some (PyJson.objVal acc', r4)
            | _ => none
        | _ => none
    | _ => none

/-- Elements of an array, positioned at a value; trailing commas are
rejected because a comma always demands another element. -/
def parseArrBody : Nat → List PyJson → Str → Option (PyJson × Str)
  | 0, _, _ => none
  | fuel + 1, acc, s =>
    match parseValue fuel s with
    | none => none
    | some (v, r1) =>
      match skipWsL r1 with
      | ',' :: r2 => parseArrBody fuel (v :: acc) (skipWsL r2)
      | ']' :: r2 => some (PyJson.arrVal (v :: acc).reverse, r2)
      | _ => none

end

/-- Model of json.loads on a str argument: reject a leading BOM, skip
surrounding whitespace, parse exactly one value, and demand that
nothing but whitespace follows ("Extra data" otherwise).  A None result
models a raised JSONDecodeError.  (CPython's recursion limit on deeply
nested input is outside the modelled scope.) -/
def jsonLoads (s : Str) : Option PyJson :=
  match s with
  | '\uFEFF' :: _ => none
  | _ =>
    match parseValue (s.length + 1) (skipWsL s) with
    | some (v, rest) => if skipWsL rest = [] then some v else none
    | none => none

/-- The backtick character. -/
def backtick : Char := Char.ofNat 96

/-- The opening brace character. -/
def lbrace : Char := Char.ofNat 123

/-- The closing brace character. -/
def rbrace : Char := Char.ofNat 125

/-- Drop the literal "json" after an opening fence when present, as the
greedy optional group does; the consumed letters can never contain a
backtick, so this choice never needs to be undone. -/
def dropJsonTag (s : Str) : Str :=
  if startsList (lit "json") s then s.drop 4 else s

/-- Model of re.search for the fenced-block pattern (DOTALL): three
backticks, an optional "json", greedy whitespace, then the lazy group up
to the next backtick triple.  The optional newline after the whitespace
class is always empty because the greedy whitespace has already consumed
every newline.  Match attempts start at successive occurrences of a
backtick triple, as the leftmost-match rule demands. -/
def fenceSearch : Nat → Str → Option Str
  | 0, _ => none
  | fuel + 1, s =>
    match findSub s (lit "```") with
    | none => none
    | some i =>
      let rest := s.drop (i + 3)
      let rest2 := (dropJsonTag rest).dropWhile isPyWs
      match findSub rest2 (lit "```") with
      | some k => some (rest2.take k)
      | none => fenceSearch fuel (s.drop (i + 1))

/-- The first greedy brace region of the DOTALL regex: from the first
opening brace to the last closing brace, when they are in order. -/
def braceSearch (s : Str) : Option Str :=
  match findSub s (lit "\x7b"), findSub s.reverse (lit "\x7d") with
  | some i, some jr =>
    let j := s.length - 1 - jr
    if i < j then some ((s.drop i).take (j - i + 1)) else none
  | _, _ => none

/-- The candidate text parse_json_response hands to the strict parser:
the stripped fenced content when a fence matches, otherwise the
stripped input (app.py lines 185-188). -/
def parseCandidate (text : Str) : Str :=
  match fenceSearch ((pyStrip text).length + 1) (pyStrip text) with
  | some g => pyStrip g
  | none => pyStrip text

/-- Model of parse_json_response (app.py lines 184-198): strip the
input, take the fenced content as candidate when a fence matches, try a
strict parse of the candidate, then try a strict parse of the
candidate's greedy brace region, and fall back to the empty mapping. -/
def parse_json_response (text : Str) : PyJson :=
  match jsonLoads (parseCandidate text) with
  | some v => v
  | none =>
    match braceSearch (parseCandidate text) with
    | some r =>
      match jsonLoads r with
      | some v => v
      | none => PyJson.objVal []
    | none => PyJson.objVal []

/-- Lazy scan for the optional prefix of the first LinkedIn pattern: a
shortest dot-star up to a dash or slash, then the captured greedy digit
run of length at least eight.  A newline stops the scan because the dot
does not match it. -/
def p1Lazy : Str → Option Str
  | [] => none
  | c :: rest =>
    if (c = '-' ∨ c = '/') ∧ 8 ≤ (takeDigits rest).length then some (takeDigits rest)
    else if c = '\n' then none
    else p1Lazy rest

/-- Match of the first LinkedIn pattern at a position just after
"jobs/view/": the greedy optional group attempts its bracketed
alternative before falling back to the direct digit run. -/
def p1At (t : Str) : Option Str :=
  match p1Lazy t with
  | some r => some r
  | none => if 8 ≤ (takeDigits t).length then some (takeDigits t) else none

/-- Leftmost search for the path-segment pattern
jobs/view/ lazy-prefix digits-eight-or-more. -/
def p1Search : Str → Option Str
  | [] => none
  | c :: rest =>
    if startsList (lit "jobs/view/") (c :: rest) then
      match p1At ((c :: rest).drop 10) with
      | some r => some r
      | none => p1Search rest
    else p1Search rest

/-- Leftmost search for the query-parameter pattern currentJobId= then
one or more digits (note: the source pattern accepts any digit count). -/
def p2Search : Str → Option Str
  | [] => none
  | c :: rest =>
    if startsList (lit "currentJobId=") (c :: rest)
        ∧ 1 ≤ (takeDigits ((c :: rest).drop 13)).length then
      some (takeDigits ((c :: rest).drop 13))
    else p2Search rest

/-- The end anchor: matches at the end of the string or just before a
final newline. -/
def atEndB (s : Str) : Bool :=
  match s with
  | [] => true
  | ['\n'] => true
  | _ => false

/-- After the digit run of the third pattern: an optional slash, then a
question mark or the end anchor.  The greedy optional slash never needs
undoing because a leading slash can satisfy neither alternative of the
final group. -/
def p3After (s : Str) : Bool :=
  match s with
  | '?' :: _ => true
  | '/' :: rest =>
    (match rest with
     | '?' :: _ => true
     | _ => atEndB rest)
  | _ => atEndB s

/-- Leftmost search for the trailing-numeric-segment pattern: a slash,
at least eight digits, an optional slash, then a question mark or the
end.  Only the maximal digit run can succeed, since any shorter prefix
of the run is followed by a digit. -/
def p3Search : Str → Option Str
  | [] => none
  | c :: rest =>
    if c = '/' ∧ 8 ≤ (takeDigits rest).length
        ∧ p3After (rest.drop (takeDigits rest).length) then
      some (takeDigits rest)
    else p3Search rest

/-- Model of _extract_linkedin_job_id (app.py lines 70-80): the three
patterns tried in order, first match wins. -/
def extract_linkedin_job_id (url : Str) : Option Str :=
  match p1Search url with
  | some r => some r
  | none =>
    match p2Search url with
    | some r => some r
    | none => p3Search url

/-- Characters urlsplit removes anywhere in the URL. -/
def isUnsafeUrlChar (c : Char) : Bool := c = '\t' || c = '\x0d' || c = '\n'

/-- C0 control characters and space, stripped from the ends by
urlsplit. -/
def isC0OrSpace (c : Char) : Bool := c.toNat ≤ 32

/-- Characters allowed in a URL scheme. -/
def schemeChar (c : Char) : Bool := c.isAlphanum || c = '+' || c = '-' || c = '.'

/-- Drop a leading scheme and its colon when the prefix before the first
colon is a well-formed scheme, as urlsplit does. -/
def dropScheme (url : Str) : Str :=
  match findSub url (lit ":") with
  | some i =>
    if 0 < i ∧ (url.headD ' ').isAlpha ∧ (url.take i).all schemeChar then
      url.drop (i + 1)
    else url
  | none => url

/-- The authority segment urlsplit extracts (Python 3.12 semantics):
sanitize the URL, drop the scheme, and when the remainder starts with
two slashes take everything up to the next slash, question mark or
hash; none when the URL has no authority part. -/
def netlocSeg (url : Str) : Option Str :=
  let u0 := url.filter (fun c => ¬ isUnsafeUrlChar c)
  let u := ((u0.dropWhile isC0OrSpace).reverse.dropWhile isC0OrSpace).reverse
  let r := dropScheme u
  if startsList (lit "//") r then
    some ((r.drop 2).takeWhile (fun c => ¬ (c = '/' ∨ c = '?' ∨ c = '#')))
  else none

/-- Model of urlparse(url).netloc for URLs on which urlsplit returns:
the extracted authority segment, or empty when there is none. -/
def netloc (url : Str) : Str := (netlocSeg url).getD []

/-- urlsplit's error path: when the authority segment contains a square
bracket of one kind but not the other, urlsplit raises
ValueError("Invalid IPv6 URL") instead of returning (cpython
urllib/parse.py).  scrape_job_url calls urlparse outside every try
block (app.py line 117), so this error escapes to its caller.  (The
stricter validation of a host inside balanced brackets added by newer
CPython versions is outside the modelled scope.) -/
def urlparseRaises (url : Str) : Bool :=
  match netlocSeg url with
  | some n =>
    (n.contains '[' && !(n.contains ']')) || (n.contains ']' && !(n.contains '['))
  | none => false

/-- Hexadecimal digit character, lowercase. -/
def hexDigitChar (n : Nat) : Char :=
  if n < 10 then digitChar n else Char.ofNat (87 + n)

/-- The single-quote character. -/
def squote : Char := Char.ofNat 39

/-- The double-quote character. -/
def dquote : Char := Char.ofNat 34

/-- Body of the Python repr of a string with chosen quote character:
escape backslash, the quote, newline, carriage return, tab, and other
control characters in hex.  (Printability classes of non-ASCII
characters are outside the modelled scope.) -/
def pyReprStrBody (q : Char) (s : Str) : Str :=
  s.flatMap fun c =>
    if c = '\\' then lit "\\\\"
    else if c = q then ['\\', q]
    else if c = '\n' then lit "\\n"
    else if c = '\x0d' then lit "\\r"
    else if c = '\t' then lit "\\t"
    else if c.toNat < 32 ∨ c.toNat = 127 then
      lit "\\x" ++ [hexDigitChar (c.toNat / 16), hexDigitChar (c.toNat % 16)]
    else [c]

/-- Python repr of a string: single quotes unless the string contains a
single quote but no double quote. -/
def pyReprStr (s : Str) : Str :=
  let q := if s.contains squote ∧ ¬ s.contains dquote then dquote else squote
  q :: (pyReprStrBody q s ++ [q])

mutual

/-- Python repr of a json-derived value. -/
def pyReprV : PyJson → Str
  | .null => lit "None"
  | .boolVal true => lit "True"
  | .boolVal false => lit "False"
  | .intVal n => intToStr n
  | .floatVal tok => tok
  | .strVal s => pyReprStr s
  | .arrVal xs => '[' :: (pyReprList xs ++ [']'])
  | .objVal kvs => lbrace :: (pyReprPairs kvs ++ [rbrace])

/-- Comma-separated reprs of list elements. -/
def pyReprList : List PyJson → Str
  | [] => []
  | [x] => pyReprV x
  | x :: y :: rest => pyReprV x ++ lit ", " ++ pyReprList (y :: rest)

/-- Comma-separated reprs of dict items. -/
def pyReprPairs : List (Str × PyJson) → Str
  | [] => []
  | [(k, v)] => pyReprStr k ++ lit ": " ++ pyReprV v
  | (k, v) :: p :: rest => pyReprStr k ++ lit ": " ++ pyReprV v ++ lit ", " ++ pyReprPairs (p :: rest)

end

/-- Python str() of a json-derived value, as interpolated by f-strings:
the identity on strings, repr on everything else.  (The token of a float
stands in for its repr; the program never branches on this text.) -/
def pyFStr : PyJson → Str
  | .strVal s => s
  | v => pyReprV v

/-- Result of the guest-API fetch and its BeautifulSoup selections as
consumed by _scrape_linkedin_guest_api.  A missing record models an
exception inside the try block; each element field holds the get_text
of the selected element, or nothing when the selector matched nothing. -/
structure GuestPage where
  respOk : Bool
  respTextLen : Nat
  titleEl : Option Str
  companyEl : Option Str
  locEl : Option Str
  descEl : Option Str

/-- The labeled parts collected by _scrape_linkedin_guest_api in source
order. -/
def guestParts (p : GuestPage) : List Str :=
  (match p.titleEl with | some t => [lit "Job Title: " ++ t] | none => []) ++
  (match p.companyEl with | some t => [lit "Company: " ++ t] | none => []) ++
  (match p.locEl with | some t => [lit "Location: " ++ t] | none => []) ++
  (match p.descEl with | some t => [lit "\n" ++ t] | none => [])

/-- The joined labeled text of the guest-API page. -/
def guestText (p : GuestPage) : Str :=
  List.intercalate (lit "\n") (guestParts p)

/-- Model of _scrape_linkedin_guest_api (app.py lines 83-111): require a
2xx response longer than 200 characters, join the labeled parts with
newlines, and return the text only when longer than 100 characters. -/
def scrape_linkedin_guest_api (page : Option GuestPage) : Option Str :=
  match page with
  | none => none
  | some p =>
    if p.respOk ∧ 200 < p.respTextLen then
      if 100 < (guestText p).length then some (guestText p) else none
    else none

/-- Outcome of the JSON-LD script loop. -/
inductive LdOut where
  | found (t : Str)
  | aborted
  | exhausted

/-- Result of processing one JSON-LD script. -/
inductive LdStep where
  | ret (t : Str)
  | abort
  | next

/-- The company part of the synthesized JSON-LD text: the name of the
hiringOrganization mapping when it is one, empty otherwise. -/
def ldCompany (kvs : List (Str × PyJson)) : Str :=
  match dictGetD kvs (lit "hiringOrganization") (.objVal []) with
  | .objVal okvs => pyFStr (dictGetD okvs (lit "name") (.strVal []))
  | _ => []

/-- The labeled text synthesized from a JobPosting object (app.py line
141): title, company and description interpolated by an f-string. -/
def ldText (kvs : List (Str × PyJson)) : Str :=
  lit "Job Title: " ++ pyFStr (dictGetD kvs (lit "title") (.strVal []))
    ++ lit "\nCompany: " ++ ldCompany kvs
    ++ lit "\n\n" ++ pyFStr (dictGetD kvs (lit "description") (.strVal []))

/-- The acceptance step of a JobPosting object: clean the synthesized
text through BeautifulSoup, keep it when longer than 100 characters,
and return it stripped (app.py lines 142-144). -/
def ldBuild (getTextNl : Str → Str) (kvs : List (Str × PyJson)) : LdStep :=
  if 100 < (getTextNl (ldText kvs)).length then .ret (pyStrip (getTextNl (ldText kvs)))
  else .next

/-- Dispatch on one loaded JSON-LD value after list unwrapping: only a
mapping whose @type is the string JobPosting is accepted. -/
def ldData (getTextNl : Str → Str) (d : PyJson) : LdStep :=
  match d with
  | .objVal kvs =>
    (match dictGet kvs (lit "@type") with
     | some (.strVal ty) =>
       if ty = lit "JobPosting" then ldBuild getTextNl kvs else .next
     | _ => .next)
  | _ => .next

/-- Processing of one JSON-LD script inside scrape_job_url's loop
(app.py lines 131-146).  A script whose json fails to load is skipped
by the inner except clause; a loaded empty list raises IndexError,
which the inner except does not catch, aborting the whole main try
block; a loaded non-empty list is replaced by its first element. -/
def ldEntry (getTextNl : Str → Str) (e : Option PyJson) : LdStep :=
  match e with
  | none => .next
  | some (.arrVal []) => .abort
  | some (.arrVal (x :: _)) => ldData getTextNl x
  | some w => ldData getTextNl w

/-- The JSON-LD script loop: scripts processed in order, stopping at a
returned text or an abort. -/
def ldLoop (getTextNl : Str → Str) : List (Option PyJson) → LdOut
  | [] => .exhausted
  | e :: rest =>
    match ldEntry getTextNl e with
    | .ret t => .found t
    | .abort => .aborted
    | .next => ldLoop getTextNl rest

/-- The CSS-selector loop (app.py lines 148-155).  Each entry stands for
one selector's element, given as the list of its stripped strings:
get_text with no separator concatenates them and must exceed 200
characters, and the returned text joins them with newlines. -/
def selLoop : List (Option (List Str)) → Option Str
  | [] => none
  | none :: rest => selLoop rest
  | some ss :: rest =>
    if 200 < ss.flatten.length then some (List.intercalate (lit "\n") ss)
    else selLoop rest

/-- The main page fetch as consumed by scrape_job_url's central try
block: the loaded JSON-LD scripts, the selector elements, the body text
from get_text with newline separator, and the BeautifulSoup get_text
oracle used to clean the synthesized JSON-LD text. -/
structure MainPage where
  ldScripts : List (Option PyJson)
  selEls : List (Option (List Str))
  body : Option Str
  getTextNl : Str → Str

/-- The central try block of scrape_job_url (app.py lines 126-163):
JSON-LD scripts, then selectors, then the raw body over the stricter
200-character threshold.  A missing page models an exception from the
fetch itself, and an aborted JSON-LD loop likewise falls through to the
cache step. -/
def scrapeMain (page : Option MainPage) : Option Str :=
  match page with
  | none => none
  | some p =>
    match ldLoop p.getTextNl p.ldScripts with
    | .found t => some t
    | .aborted => none
    | .exhausted =>
      match selLoop p.selEls with
      | some t => some t
      | none =>
        match p.body with
        | some b => if 200 < b.length then some b else none
        | none => none

/-- The cached-page fetch as consumed by the final fallback. -/
structure CachePage where
  respOk : Bool
  body : Option Str

/-- The cache fallback of scrape_job_url (app.py lines 165-176). -/
def scrapeCache (page : Option CachePage) : Option Str :=
  match page with
  | none => none
  | some c =>
    if c.respOk then
      match c.body with
      | some b => if 200 < b.length then some b else none
      | none => none
    else none

/-- The network world a single scrape_job_url call runs against: one
record per try block, where a missing record models an exception raised
inside that block. -/
structure ScrapeEnv where
  guest : Option GuestPage
  page : Option MainPage
  cache : Option CachePage

/-- The LinkedIn branch of scrape_job_url (app.py lines 119-124): when
the host contains linkedin.com and a job id is extracted, the guest-API
strategy runs. -/
def liStep (url : Str) (guest : Option GuestPage) : Option Str :=
  if containsSub (netloc url) (lit "linkedin.com") then
    match extract_linkedin_job_id url with
    | some _ => scrape_linkedin_guest_api guest
    | none => none
  else none

/-- Model of scrape_job_url (app.py lines 114-178): reject non-http
URLs, then call urlparse — which sits outside every try block, so its
ValueError on a bracket-unbalanced authority escapes as Except.error —
then try the LinkedIn guest API when the host matches and a job id is
found, then the main fetch, then the cache fallback. -/
def scrape_job_url (url : Str) (env : ScrapeEnv) : Except Unit (Option Str) :=
  if ¬ startsList (lit "http") url then Except.ok none
  else if urlparseRaises url then Except.error ()
  else Except.ok (
    match liStep url env.guest with
    | some r => some r
    | none =>
      match scrapeMain env.page with
      | some r => some r
      | none => scrapeCache env.cache)

/-- The opening highlight-span tag substituted for an opening marker
(app.py line 406). -/
def spanOpen : Str := lit "<span class=\"changed\">"

/-- The closing highlight-span tag. -/
def spanClose : Str := lit "</span>"

/-- The marker transform applied by render_resume_html after template
rendering (app.py lines 405-408): with highlighting, each opening
delimiter pair becomes the opening span tag and each closing pair the
closing tag; without, both delimiters are removed.  The opening
replacement runs first, as in the source. -/
def markerTransform (highlight : Bool) (html : Str) : Str :=
  if highlight then
    replace2 ']' ']' spanClose (replace2 '[' '[' spanOpen html)
  else
    replace2 ']' ']' [] (replace2 '[' '[' [] html)

/-- A Jinja interpolation of a mapping's field: the field's str() when
present, empty when missing or when the holder is not a mapping.
Modelled from the spec: resume_template.html is not under src, and
section 4.4 of the spec fixes that a missing key renders as the empty
string and never fails the document. -/
def fieldStr (v : PyJson) (key : Str) : Str :=
  match v with
  | .objVal kvs =>
    (match dictGet kvs key with
     | some w => pyFStr w
     | none => [])
  | _ => []

/-- Elements of a json list field; a missing or non-list field
contributes no elements (spec section 4.4: rendering degrades, never
fails). -/
def listField (v : PyJson) (key : Str) : List PyJson :=
  match v with
  | .objVal kvs =>
    (match dictGet kvs key with
     | some (.arrVal xs) => xs
     | _ => [])
  | _ => []

/-- An HTML element wrapping rendered content in an opening and closing
tag.  Every template literal therefore starts and ends with an angle
bracket, so marker delimiters can never span a boundary between literal
markup and interpolated text. -/
def tag (t : String) (content : Str) : Str :=
  (lit "<" ++ lit t ++ lit ">") ++ content ++ (lit "</" ++ lit t ++ lit ">")

/-- Modelled from the spec: a bullet list, one item per element. -/
def bulletsHtml (bullets : List PyJson) : Str :=
  (bullets.map (fun b => tag "li" (pyFStr b))).flatten

/-- Modelled from the spec: one subsection of an experience entry, a
small heading and its bullets. -/
def subsectionHtml (s : PyJson) : Str :=
  tag "h4" (fieldStr s (lit "title"))
    ++ tag "ul" (bulletsHtml (listField s (lit "bullets")))

/-- Modelled from the spec: one experience entry — a two-column header
row, the subsections, and the top-level bullets (both bullet carriers
render when both are populated, as section 3 of the spec requires the
renderer to tolerate). -/
def entryHtml (e : PyJson) : Str :=
  tag "div" (tag "b" (fieldStr e (lit "left_primary"))
      ++ tag "span" (fieldStr e (lit "right_primary")))
    ++ tag "div" (tag "i" (fieldStr e (lit "left_secondary"))
      ++ tag "span" (fieldStr e (lit "right_secondary")))
    ++ ((listField e (lit "subsections")).map subsectionHtml).flatten
    ++ tag "ul" (bulletsHtml (listField e (lit "bullets")))

/-- Modelled from the spec (resume_template.html is not under src): one
section block, dispatching on the section's kind tag to a prose block,
a two-column entry list, or a line list; an unknown kind contributes an
empty body, and missing keys render as empty strings (spec section 4.4:
render degradation never fails). -/
def sectionBlock (s : PyJson) : Str :=
  tag "section"
    (tag "h2" (fieldStr s (lit "title")) ++
     (match s with
      | .objVal kvs =>
        (match dictGet kvs (lit "type") with
         | some (.strVal ty) =>
           if ty = lit "text" then tag "p" (fieldStr s (lit "content"))
           else if ty = lit "experience" then
             ((listField s (lit "entries")).map entryHtml).flatten
           else if ty = lit "list" then
             tag "ul" (bulletsHtml (listField s (lit "lines")))
           else []
         | _ => [])
      | _ => []))

/-- The sections sequence handed to the template: the "sections" key of
the document when it is a list. -/
def sectionsOf (data : List (Str × PyJson)) : List PyJson :=
  match dictGet data (lit "sections") with
  | some (.arrVal xs) => xs
  | _ => []

/-- The document header: the name and contact line of the document.
Modelled from the spec; starts and ends with an angle bracket. -/
def headerPiece (data : List (Str × PyJson)) : Str :=
  lit "<html><body>"
    ++ tag "header" (tag "h1" (pyFStr (dictGetD data (lit "name") (.strVal [])))
      ++ tag "div" (pyFStr (dictGetD data (lit "contact_line") (.strVal []))))

/-- The closing document markup. -/
def footerPiece : Str := lit "</body></html>"

/-- Modelled from the spec: the template output — a fixed header built
from the name and contact line, then one block per section in order,
then the closing markup (spec section 4.4: rendering is template-driven
and a pure function of the document). -/
def templateRender (data : List (Str × PyJson)) : Str :=
  headerPiece data ++ ((sectionsOf data).map sectionBlock).flatten ++ footerPiece

/-- Model of render_resume_html (app.py lines 395-410): render the
template from the name, contact line and sections of the document, then
apply the marker transform for the requested view. -/
def render_resume_html (data : List (Str × PyJson)) (highlight_changes : Bool) : Str :=
  markerTransform highlight_changes (templateRender data)

/-- Absence of an adjacent delimiter pair p q. -/
def noPairB (p q : Char) : Str → Bool
  | [] => true
  | [_] => true
  | c :: d :: rest => if c = p ∧ d = q then false else noPairB p q (d :: rest)

theorem replace2_append (p q : Char) (rep : Str) :
    ∀ a b : Str, ¬(a.getLast? = some p ∧ b.head? = some q) →
      replace2 p q rep (a ++ b) = replace2 p q rep a ++ replace2 p q rep b
  | [], _, _ => by simp [replace2]
  | [c], [], _ => by simp [replace2]
  | [c], d :: bs, h => by
    have hcd : ¬(c = p ∧ d = q) := fun ⟨h1, h2⟩ => h ⟨by simp [h1], by simp [h2]⟩
    simp only [List.cons_append, List.nil_append, replace2, if_neg hcd]
  | c :: d :: rest, b, h => by
    by_cases hcd : c = p ∧ d = q
    · have hrest : ¬(rest.getLast? = some p ∧ b.head? = some q) := by
        intro ⟨h1, h2⟩
        apply h
        refine ⟨?_, h2⟩
        cases rest with
        | nil => simp at h1
        | cons r rs => simpa [List.getLast?_cons_cons] using h1
      have ih := replace2_append p q rep rest b hrest
      simp only [List.cons_append, replace2, if_pos hcd, List.append_eq, ih, List.append_assoc]
    · have hdr : ¬((d :: rest).getLast? = some p ∧ b.head? = some q) := by
        intro ⟨h1, h2⟩
        exact h ⟨by simpa [List.getLast?_cons_cons] using h1, h2⟩
      have ih := replace2_append p q rep (d :: rest) b hdr
      rw [List.cons_append] at ih
      simp only [List.cons_append, replace2, if_neg hcd, List.append_eq, ih]

theorem replace2_self (p q : Char) (rep : Str) :
    ∀ s : Str, noPairB p q s = true → replace2 p q rep s = s
  | [], _ => rfl
  | [_], _ => rfl
  | c :: d :: rest, h => by
    by_cases hcd : c = p ∧ d = q
    · simp [noPairB, if_pos hcd] at h
    · have h' : noPairB p q (d :: rest) = true := by simpa [noPairB, if_neg hcd] using h
      simp only [replace2, if_neg hcd, replace2_self p q rep (d :: rest) h']

theorem replace2_head (p q : Char) (rep : Str) (c : Char) (s : Str) (hc : c ≠ p) :
    (replace2 p q rep (c :: s)).head? = some c := by
  match s with
  | [] => rfl
  | d :: rest =>
    have hcd : ¬(c = p ∧ d = q) := fun ⟨h1, _⟩ => hc h1
    simp [replace2, if_neg hcd]

theorem replace2_last (p q : Char) (rep : Str) (c : Char) (hcp : c ≠ p) (hcq : c ≠ q) :
    ∀ s : Str, s.getLast? = some c → (replace2 p q rep s).getLast? = some c
  | [], h => by simp at h
  | [a], h => by
    have ha : a = c := by simpa using h
    subst ha
    rfl
  | a :: b :: rest, h => by
    by_cases hab : a = p ∧ b = q
    · have hr : rest ≠ [] := by
        intro he
        subst he
        have : b = c := by simpa [List.getLast?_cons_cons] using h
        exact hcq (this ▸ hab.2)
      have hrest : rest.getLast? = some c := by
        cases rest with
        | nil => exact absurd rfl hr
        | cons r rs => simpa [List.getLast?_cons_cons] using h
      have ih := replace2_last p q rep c hcp hcq rest hrest
      have hne : replace2 p q rep rest ≠ [] := by
        intro he
        rw [he] at ih
        simp at ih
      rw [replace2, if_pos hab, List.getLast?_append_of_ne_nil _ hne]
      exact ih
    · have hbl : (b :: rest).getLast? = some c := by
        simpa [List.getLast?_cons_cons] using h
      have ih := replace2_last p q rep c hcp hcq (b :: rest) hbl
      have hne : replace2 p q rep (b :: rest) ≠ [] := by
        intro he
        rw [he] at ih
        simp at ih
      rw [replace2, if_neg hab]
      calc (a :: replace2 p q rep (b :: rest)).getLast?
      _ = ([a] ++ replace2 p q rep (b :: rest)).getLast? := by simp
      _ = some c := by rw [List.getLast?_append_of_ne_nil _ hne]; exact ih

theorem markerTransform_append (hl : Bool) (a b : Str) (hb : b.head? = some '<') :
    markerTransform hl (a ++ b) = markerTransform hl a ++ markerTransform hl b := by
  obtain ⟨bs, rfl⟩ : ∃ bs, b = '<' :: bs := by
    cases b with
    | nil => simp at hb
    | cons x xs =>
      have hx : x = '<' := by simpa using hb
      exact ⟨xs, by rw [hx]⟩
  have h1 : ¬(a.getLast? = some '[' ∧ ('<' :: bs).head? = some '[') := by
    intro ⟨_, h2⟩
    simp at h2
  have h2 : ∀ rep : Str,
      ¬((replace2 '[' '[' rep a).getLast? = some ']'
        ∧ (replace2 '[' '[' rep ('<' :: bs)).head? = some ']') := by
    intro rep ⟨_, hx⟩
    rw [replace2_head '[' '[' rep '<' bs (by decide)] at hx
    simp at hx
  cases hl with
  | true =>
    show replace2 ']' ']' spanClose (replace2 '[' '[' spanOpen (a ++ '<' :: bs)) = _
    rw [replace2_append '[' '[' spanOpen a ('<' :: bs) h1,
      replace2_append ']' ']' spanClose _ _ (h2 spanOpen)]
    rfl
  | false =>
    show replace2 ']' ']' [] (replace2 '[' '[' [] (a ++ '<' :: bs)) = _
    rw [replace2_append '[' '[' [] a ('<' :: bs) h1,
      replace2_append ']' ']' [] _ _ (h2 [])]
    rfl

theorem markerTransform_nil (hl : Bool) : markerTransform hl [] = [] := by
  cases hl <;> rfl

theorem markerTransform_flatten (hl : Bool) :
    ∀ l : List Str, (∀ x ∈ l, x.head? = some '<') →
      markerTransform hl l.flatten = (l.map (markerTransform hl)).flatten
  | [], _ => by simp [markerTransform_nil]
  | x :: rest, h => by
    rw [List.flatten_cons, List.map_cons, List.flatten_cons]
    cases rest with
    | nil => simp [markerTransform_nil]
    | cons y ys =>
      have hy : (List.flatten (y :: ys)).head? = some '<' := by
        rw [List.flatten_cons]
        have hyh := h y (by simp)
        cases y with
        | nil => simp at hyh
        | cons c cs => simpa using hyh
      rw [markerTransform_append hl x _ hy,
        markerTransform_flatten hl (y :: ys) (fun z hz => h z (by simp [hz]))]

theorem tag_head (t : String) (c : Str) : (tag t c).head? = some '<' := rfl

theorem tag_ne_nil (t : String) (c : Str) : tag t c ≠ [] := by
  intro h
  have := congrArg List.head? h
  rw [tag_head] at this
  simp at this

theorem getLast?_append_lit_gt (a : Str) : (a ++ lit ">").getLast? = some '>' := by
  rw [List.getLast?_append_of_ne_nil _ (by decide : lit ">" ≠ ([] : Str))]
  decide

theorem tag_last (t : String) (c : Str) : (tag t c).getLast? = some '>' := by
  have h : tag t c = ((lit "<" ++ lit t ++ lit ">") ++ c ++ (lit "</" ++ lit t)) ++ lit ">" := by
    unfold tag
    simp [List.append_assoc]
  rw [h]
  exact getLast?_append_lit_gt _

theorem flatten_head_lt (fp : Str) (hfp : fp.head? = some '<') :
    ∀ l : List Str, (∀ x ∈ l, x.head? = some '<') → (l.flatten ++ fp).head? = some '<'
  | [], _ => by simpa using hfp
  | x :: xs, h => by
    have hx := h x (by simp)
    cases x with
    | nil => simp at hx
    | cons c cs =>
      have hc : c = '<' := by simpa using hx
      simp [hc]

/-- C1: Section-order preservation — for every document and both values
of the highlight flag, the rendered output is the transformed header,
followed by exactly one transformed block per section in the same
order, followed by the transformed footer: no section is reordered,
merged, or dropped.  (The per-section layouts come from the
spec-modelled template, since resume_template.html is not under src.) -/
theorem render_section_order (data : List (Str × PyJson)) (hl : Bool) :
    render_resume_html data hl =
      markerTransform hl (headerPiece data)
        ++ ((sectionsOf data).map (fun s => markerTransform hl (sectionBlock s))).flatten
        ++ markerTransform hl footerPiece := by
  unfold render_resume_html templateRender
  have hblocks : ∀ x ∈ (sectionsOf data).map sectionBlock, x.head? = some '<' := by
    intro x hx
    obtain ⟨s, _, rfl⟩ := List.mem_map.mp hx
    exact tag_head _ _
  rw [List.append_assoc,
    markerTransform_append hl (headerPiece data) _ (flatten_head_lt footerPiece rfl _ hblocks),
    markerTransform_append hl _ footerPiece rfl,
    markerTransform_flatten hl _ hblocks, List.map_map]
  simp [Function.comp_def]

/-- C10: Render determinism and noninterference — the rendered output
depends only on the name, contact line and sections keys of the
document plus the highlight flag, so documents agreeing on those keys
render byte-identically whatever their other keys (such as
match_notes).  The template is the spec-modelled fixed one, so repeated
calls on an identical document are trivially identical and no network
or model call occurs. -/
theorem render_noninterference (d1 d2 : List (Str × PyJson)) (hl : Bool)
    (hname : dictGet d1 (lit "name") = dictGet d2 (lit "name"))
    (hcontact : dictGet d1 (lit "contact_line") = dictGet d2 (lit "contact_line"))
    (hsections : dictGet d1 (lit "sections") = dictGet d2 (lit "sections")) :
    render_resume_html d1 hl = render_resume_html d2 hl := by
  unfold render_resume_html templateRender headerPiece sectionsOf dictGetD
  rw [hname, hcontact, hsections]

/-- Witness for render_noninterference: two documents differing in a
match_notes key render identically. -/
theorem render_noninterference_witness :
    render_resume_html [(lit "name", PyJson.strVal (lit "A")),
        (lit "match_notes", PyJson.intVal 1)] true
      = render_resume_html [(lit "name", PyJson.strVal (lit "A"))] true :=
  render_noninterference _ _ true rfl rfl rfl

/-- Discriminator for mapping results. -/
def isObjB : PyJson → Bool
  | .objVal _ => true
  | _ => false

/-- C2: the input "42" is a failing input for the claim that
parse_json_response always returns a mapping — the strict parse of the
candidate succeeds with the integer 42, which the function returns
as-is although the input contains no brace region, so the result is
neither a mapping nor the empty mapping (contradicting the function's
own -> dict annotation). -/
theorem parse_json_response_nondict :
    parse_json_response (lit "42") = PyJson.intVal 42
      ∧ isObjB (parse_json_response (lit "42")) = false :=
  ⟨rfl, rfl⟩

/-- C4 (amended): when the strict parse of the candidate fails, the
brace search runs on the candidate — the fenced content when a fence
matched, otherwise the stripped input, not the original text — and when
the candidate's greedy brace region (first opening brace through last
closing brace) parses strictly, its parse is returned. -/
theorem parse_brace_recovery (text : Str) (r : Str) (v : PyJson)
    (hfail : jsonLoads (parseCandidate text) = none)
    (hregion : braceSearch (parseCandidate text) = some r)
    (hparse : jsonLoads r = some v) :
    parse_json_response text = v := by
  unfold parse_json_response
  rw [hfail, hregion]
  show (match jsonLoads r with
    | some w => w
    | none => PyJson.objVal []) = v
  rw [hparse]

/-- Witness for parse_brace_recovery: commentary followed by a JSON
object parses to that object. -/
theorem parse_brace_recovery_witness :
    parse_json_response (lit "note \x7b\"a\": 1\x7d") =
      PyJson.objVal [(lit "a", PyJson.intVal 1)] :=
  parse_brace_recovery _ _ _ rfl rfl rfl

/-- C4 counterexample: the fence of this input captures "x", which
fails to parse, and the brace search runs on that candidate rather than
on the original text, so the parseable brace region present in the
original text is ignored and the empty mapping is returned instead of
its parse. -/
theorem parse_brace_not_original :
    parse_json_response (lit "```x```\x7b\"a\":1\x7d") = PyJson.objVal []
      ∧ braceSearch (lit "```x```\x7b\"a\":1\x7d") = some (lit "\x7b\"a\":1\x7d")
      ∧ jsonLoads (lit "\x7b\"a\":1\x7d") = some (PyJson.objVal [(lit "a", PyJson.intVal 1)])
      ∧ PyJson.objVal ([] : List (Str × PyJson)) ≠ PyJson.objVal [(lit "a", PyJson.intVal 1)] := by
  refine ⟨rfl, rfl, rfl, ?_⟩
  intro h
  injection h with h'
  simp at h'

theorem ldBuild_ret (f : Str → Str) (kvs : List (Str × PyJson)) (t : Str)
    (h : ldBuild f kvs = .ret t) : ∃ c, 100 < c.length ∧ t = pyStrip c := by
  unfold ldBuild at h
  split at h
  · rename_i hlen
    injection h with h'
    exact ⟨_, hlen, h'.symm⟩
  · cases h

theorem ldData_ret (f : Str → Str) (d : PyJson) (t : Str)
    (h : ldData f d = .ret t) : ∃ c, 100 < c.length ∧ t = pyStrip c := by
  unfold ldData at h
  repeat' split at h
  all_goals first
    | (cases h)
    | (exact ldBuild_ret f _ t h)

theorem ldEntry_ret (f : Str → Str) (e : Option PyJson) (t : Str)
    (h : ldEntry f e = .ret t) : ∃ c, 100 < c.length ∧ t = pyStrip c := by
  unfold ldEntry at h
  repeat' split at h
  all_goals first
    | (cases h)
    | (exact ldData_ret f _ t h)

theorem ldLoop_found (f : Str → Str) :
    ∀ l : List (Option PyJson), ∀ t, ldLoop f l = .found t →
      ∃ c, 100 < c.length ∧ t = pyStrip c
  | [], t, h => by simp [ldLoop] at h
  | e :: rest, t, h => by
    rw [ldLoop] at h
    split at h
    · rename_i hs
      injection h with h'
      subst h'
      exact ldEntry_ret f e _ hs
    · cases h
    · exact ldLoop_found f rest t h

theorem length_intercalate_ge (sep : Str) :
    ∀ l : List Str, l.flatten.length ≤ (List.intercalate sep l).length
  | [] => by simp [List.intercalate]
  | [x] => by simp [List.intercalate]
  | x :: y :: rest => by
    have ih := length_intercalate_ge sep (y :: rest)
    simp only [List.intercalate, List.intersperse_cons_cons, List.flatten_cons,
      List.length_append] at *
    omega

theorem selLoop_some :
    ∀ l : List (Option (List Str)), ∀ t, selLoop l = some t → 201 ≤ t.length
  | [], t, h => by simp [selLoop] at h
  | none :: rest, t, h => selLoop_some rest t (by simpa [selLoop] using h)
  | some ss :: rest, t, h => by
    rw [selLoop] at h
    split at h
    · rename_i hlen
      injection h with h'
      subst h'
      have := length_intercalate_ge (lit "\n") ss
      omega
    · exact selLoop_some rest t h

theorem guest_some (page : Option GuestPage) (t : Str)
    (h : scrape_linkedin_guest_api page = some t) : 101 ≤ t.length := by
  unfold scrape_linkedin_guest_api at h
  split at h
  · exact Option.noConfusion h
  · split at h
    · split at h
      · rename_i hlen
        injection h with h'
        subst h'
        omega
      · exact Option.noConfusion h
    · exact Option.noConfusion h

theorem scrapeMain_some (page : Option MainPage) (t : Str)
    (h : scrapeMain page = some t) :
    100 ≤ t.length ∨ ∃ c, 100 < c.length ∧ t = pyStrip c := by
  unfold scrapeMain at h
  split at h
  · exact Option.noConfusion h
  · rename_i p
    split at h
    · rename_i t' hfound
      injection h with h'
      subst h'
      exact Or.inr (ldLoop_found p.getTextNl p.ldScripts _ hfound)
    · exact Option.noConfusion h
    · split at h
      · rename_i t' hsel
        injection h with h'
        subst h'
        have := selLoop_some p.selEls _ hsel
        omega
      · split at h
        · split at h
          · rename_i hlen
            injection h with h'
            subst h'
            omega
          · exact Option.noConfusion h
        · exact Option.noConfusion h

theorem scrapeCache_some (page : Option CachePage) (t : Str)
    (h : scrapeCache page = some t) : 201 ≤ t.length := by
  unfold scrapeCache at h
  split at h
  · exact Option.noConfusion h
  · split at h
    · split at h
      · split at h
        · rename_i hlen
          injection h with h'
          subst h'
          omega
        · exact Option.noConfusion h
      · exact Option.noConfusion h
    · exact Option.noConfusion h

theorem liStep_some (url : Str) (guest : Option GuestPage) (t : Str)
    (h : liStep url guest = some t) : 101 ≤ t.length := by
  unfold liStep at h
  split at h
  · split at h
    · exact guest_some guest t h
    · exact Option.noConfusion h
  · exact Option.noConfusion h

theorem liStep_none (url : Str) (guest : Option GuestPage)
    (h : scrape_linkedin_guest_api guest = none) : liStep url guest = none := by
  unfold liStep
  split
  · cases extract_linkedin_job_id url <;> simp [h]
  · rfl

/-- A realistic environment exercising the JSON-LD path: the page holds
one JobPosting script whose description is eighty spaces; the
synthesized text is tag-free, so the BeautifulSoup get_text oracle is
the identity on it. -/
def ldPadEnv : ScrapeEnv :=
  ⟨none,
   some ⟨[some (PyJson.objVal
      [(lit "@type", PyJson.strVal (lit "JobPosting")),
       (lit "title", PyJson.strVal []),
       (lit "hiringOrganization", PyJson.objVal [(lit "name", PyJson.strVal [])]),
       (lit "description", PyJson.strVal (List.replicate 80 ' '))])],
     [], none, fun s => s⟩,
   none⟩

/-- C5 counterexample: with empty title and company and an
eighty-space description, the synthesized JSON-LD text is 103
characters, passing the 100-character check, but the returned text is
its strip — 20 characters — so scrape_job_url returns a string far
shorter than the claimed minimum of 100. -/
theorem scrape_short_return :
    scrape_job_url (lit "https://example.com/job") ldPadEnv
        = Except.ok (some (lit "Job Title: \nCompany:"))
      ∧ (lit "Job Title: \nCompany:").length = 20 := by
  constructor
  · rfl
  · rfl

/-- C5 (amended): whenever the scrape chain returns text, either the
text is at least 100 characters long, or it came from the JSON-LD
path, where the 100-character check precedes a final strip, so it is
the strip of a string longer than 100 characters and may itself be
shorter; and a page whose only extracted text is a body of at most 200
characters (for instance 50) still yields nothing, because the
raw-body path demands more than 200 characters. -/
theorem scrape_threshold (url : Str) (env : ScrapeEnv) :
    (∀ t, scrape_job_url url env = Except.ok (some t) →
      100 ≤ t.length ∨ ∃ c, 100 < c.length ∧ t = pyStrip c)
    ∧ (∀ b : Str, b.length ≤ 200 → urlparseRaises url = false →
        scrape_job_url url ⟨none, some ⟨[], [], some b, fun s => s⟩, none⟩
          = Except.ok none) := by
  constructor
  · intro t h
    unfold scrape_job_url at h
    split at h
    · exact Option.noConfusion (Except.ok.inj h)
    · split at h
      · exact Except.noConfusion h
      · have h' := Except.ok.inj h
        split at h'
        · rename_i r hli
          injection h' with h''
          subst h''
          have := liStep_some url env.guest _ hli
          omega
        · split at h'
          · rename_i r hmain
            injection h' with h''
            subst h''
            exact scrapeMain_some env.page _ hmain
          · have := scrapeCache_some env.cache _ h'
            omega
  · intro b hb hok
    unfold scrape_job_url
    split
    · rfl
    · rw [if_neg (by simp [hok]), liStep_none url none rfl]
      have hm : scrapeMain (some ⟨[], [], some b, fun s => s⟩) = none := by
        show (if 200 < b.length then some b else none) = none
        rw [if_neg (by omega : ¬ 200 < b.length)]
      rw [hm]
      rfl

/-- Witness for scrape_threshold: a 50-character body yields nothing. -/
theorem scrape_threshold_witness :
    scrape_job_url (lit "http://example.com/x")
        ⟨none, some ⟨[], [], some (List.replicate 50 'a'), fun s => s⟩, none⟩
      = Except.ok none :=
  (scrape_threshold (lit "http://example.com/x") ⟨none, none, none⟩).2
    (List.replicate 50 'a') (by simp) (by decide)

/-- C6: the totality claim fails on the source — urlparse(url) at
app.py line 117 sits outside every try block, and the URL "http://["
passes the startswith("http") guard yet makes urlsplit raise
ValueError("Invalid IPv6 URL"), because its authority "[" holds an
opening bracket and no closing one; the exception escapes
scrape_job_url for every effect environment, instead of degrading to
the next strategy or returning None. -/
theorem scrape_urlparse_raises :
    startsList (lit "http") (lit "http://[") = true
    ∧ urlparseRaises (lit "http://[") = true
    ∧ (∀ env : ScrapeEnv, scrape_job_url (lit "http://[") env = Except.error ()) := by
  refine ⟨rfl, rfl, fun env => ?_⟩
  unfold scrape_job_url
  rw [if_neg (by decide), if_pos (by decide)]

theorem takeDigits_all (s : Str) : (takeDigits s).all Char.isDigit = true := by
  rw [List.all_eq_true]
  intro c hc
  exact List.mem_takeWhile_imp hc

theorem p1Lazy_digits : ∀ t r, p1Lazy t = some r →
    8 ≤ r.length ∧ r.all Char.isDigit = true
  | [], r, h => by simp [p1Lazy] at h
  | c :: rest, r, h => by
    rw [p1Lazy] at h
    split at h
    · rename_i hc
      injection h with h'
      subst h'
      exact ⟨hc.2, takeDigits_all rest⟩
    · split at h
      · exact Option.noConfusion h
      · exact p1Lazy_digits rest r h

theorem p1At_digits (t r : Str) (h : p1At t = some r) :
    8 ≤ r.length ∧ r.all Char.isDigit = true := by
  unfold p1At at h
  split at h
  · rename_i hl
    injection h with h'
    subst h'
    exact p1Lazy_digits t _ hl
  · split at h
    · rename_i hlen
      injection h with h'
      subst h'
      exact ⟨hlen, takeDigits_all t⟩
    · exact Option.noConfusion h

theorem p1Search_digits : ∀ url r, p1Search url = some r →
    8 ≤ r.length ∧ r.all Char.isDigit = true
  | [], r, h => by simp [p1Search] at h
  | c :: rest, r, h => by
    rw [p1Search] at h
    split at h
    · split at h
      · rename_i hat
        injection h with h'
        subst h'
        exact p1At_digits _ _ hat
      · exact p1Search_digits rest r h
    · exact p1Search_digits rest r h

theorem p2Search_digits : ∀ url r, p2Search url = some r →
    1 ≤ r.length ∧ r.all Char.isDigit = true
  | [], r, h => by simp [p2Search] at h
  | c :: rest, r, h => by
    rw [p2Search] at h
    split at h
    · rename_i hc
      injection h with h'
      subst h'
      exact ⟨hc.2, takeDigits_all _⟩
    · exact p2Search_digits rest r h

theorem p3Search_digits : ∀ url r, p3Search url = some r →
    8 ≤ r.length ∧ r.all Char.isDigit = true
  | [], r, h => by simp [p3Search] at h
  | c :: rest, r, h => by
    rw [p3Search] at h
    split at h
    · rename_i hc
      injection h with h'
      subst h'
      exact ⟨hc.2.1, takeDigits_all _⟩
    · exact p3Search_digits rest r h

/-- C8 counterexample: on a URL whose only identifier source is the
query parameter, extraction succeeds with the single digit "5", which
is not a run of at least eight digits as the claim demands. -/
theorem extract_id_short :
    extract_linkedin_job_id (lit "https://www.linkedin.com/feed?currentJobId=5")
        = some (lit "5")
      ∧ (lit "5").length < 8 :=
  ⟨rfl, by decide⟩

/-- C8 (amended): the extracted identifier comes from the first
matching pattern in the precedence order — path-segment, then
query-parameter, then trailing-numeric-segment — and is the greedy
digit run captured at the leftmost match of that pattern: at least
eight digits for the path-segment and trailing-segment patterns, but
as few as one digit for the query-parameter pattern, whose source
regex accepts any digit count. -/
theorem extract_id_amended (url : Str) :
    (∀ r, p1Search url = some r → extract_linkedin_job_id url = some r
        ∧ 8 ≤ r.length ∧ r.all Char.isDigit = true)
    ∧ (∀ r, p1Search url = none → p2Search url = some r →
        extract_linkedin_job_id url = some r ∧ 1 ≤ r.length ∧ r.all Char.isDigit = true)
    ∧ (p1Search url = none → p2Search url = none →
        extract_linkedin_job_id url = p3Search url)
    ∧ (∀ r, p3Search url = some r → 8 ≤ r.length ∧ r.all Char.isDigit = true) := by
  refine ⟨?_, ?_, ?_, ?_⟩
  · intro r h
    have hd := p1Search_digits url r h
    refine ⟨?_, hd.1, hd.2⟩
    unfold extract_linkedin_job_id
    rw [h]
  · intro r h1 h2
    have hd := p2Search_digits url r h2
    refine ⟨?_, hd.1, hd.2⟩
    unfold extract_linkedin_job_id
    rw [h1, h2]
  · intro h1 h2
    unfold extract_linkedin_job_id
    rw [h1, h2]
  · intro r h
    exact p3Search_digits url r h

/-- Witness for extract_id_amended: a path-segment URL yields its
twelve-digit run through the first pattern. -/
theorem extract_id_amended_witness :
    extract_linkedin_job_id
        (lit "https://www.linkedin.com/jobs/view/senior-engineer-123456789012")
        = some (lit "123456789012")
      ∧ 8 ≤ (lit "123456789012").length
      ∧ (lit "123456789012").all Char.isDigit = true :=
  (extract_id_amended _).1 (lit "123456789012") rfl

theorem dropWhile_append_all (p : Char → Bool) :
    ∀ a b : Str, (∀ c ∈ a, p c = true) → (a ++ b).dropWhile p = b.dropWhile p
  | [], _, _ => rfl
  | c :: rest, b, h => by
    rw [List.cons_append, List.dropWhile_cons, if_pos (h c (by simp))]
    exact dropWhile_append_all p rest b (fun d hd => h d (by simp [hd]))

theorem dropWhile_cons_neg (p : Char → Bool) (c : Char) (s : Str) (hc : p c = false) :
    (c :: s).dropWhile p = c :: s := by
  rw [List.dropWhile_cons, if_neg (by simp [hc])]

theorem pyStrip_sandwich (a b core : Str) (c0 c1 : Char)
    (ha : ∀ c ∈ a, isPyWs c = true) (hb : ∀ c ∈ b, isPyWs c = true)
    (hh : core.head? = some c0) (hc0 : isPyWs c0 = false)
    (hl : core.getLast? = some c1) (hc1 : isPyWs c1 = false) :
    pyStrip (a ++ core ++ b) = core := by
  obtain ⟨rest, rfl⟩ : ∃ rest, core = c0 :: rest := by
    cases core with
    | nil => simp at hh
    | cons x xs =>
      have hx : x = c0 := by simpa using hh
      exact ⟨xs, by rw [hx]⟩
  unfold pyStrip
  rw [List.append_assoc, dropWhile_append_all _ a _ ha, List.cons_append,
    dropWhile_cons_neg _ _ _ hc0, ← List.cons_append, List.reverse_append,
    dropWhile_append_all _ b.reverse _ (fun c hc => hb c (by simpa using hc))]
  have hrev : (c0 :: rest).reverse.dropWhile isPyWs = (c0 :: rest).reverse := by
    cases hr : (c0 :: rest).reverse with
    | nil => simp at hr
    | cons x xs =>
      have hx : x = c1 := by
        have h1 : (c0 :: rest).reverse.head? = some x := by rw [hr]; rfl
        rw [List.head?_reverse, hl] at h1
        exact (Option.some.inj h1).symm
      subst hx
      exact dropWhile_cons_neg _ _ _ hc1
  rw [hrev, List.reverse_reverse]

theorem startsList_append_self : ∀ p x : Str, startsList p (p ++ x) = true
  | [], _ => rfl
  | c :: rest, x => by simp [startsList, startsList_append_self rest x]

theorem startsList_false_of_head_ne (p0 c : Char) (ps cs : Str) (h : c ≠ p0) :
    startsList (p0 :: ps) (c :: cs) = false := by
  have hd : decide (p0 = c) = false := decide_eq_false (fun hh => h hh.symm)
  simp [startsList, hd]

theorem findSub_none_of_no_char (p0 : Char) (ps : Str) :
    ∀ s : Str, (∀ c ∈ s, c ≠ p0) → findSub s (p0 :: ps) = none
  | [], _ => rfl
  | c :: cs, h => by
    have hf := startsList_false_of_head_ne p0 c ps cs (h c (by simp))
    rw [findSub, hf]
    simp [findSub_none_of_no_char p0 ps cs (fun d hd => h d (by simp [hd]))]

theorem findSub_self_prefix (pat x : Str) (hne : pat ≠ []) :
    findSub (pat ++ x) pat = some 0 := by
  cases pat with
  | nil => exact absurd rfl hne
  | cons p ps =>
    have hs : startsList (p :: ps) (p :: (ps ++ x)) = true := by
      have := startsList_append_self (p :: ps) x
      rwa [List.cons_append] at this
    rw [List.cons_append, findSub, hs]
    rfl

theorem findSub_append_self (p0 : Char) (ps : Str) :
    ∀ a b : Str, (∀ c ∈ a, c ≠ p0) →
      findSub (a ++ ((p0 :: ps) ++ b)) (p0 :: ps) = some a.length
  | [], b, _ => by
    rw [List.nil_append]
    exact findSub_self_prefix (p0 :: ps) b (by simp)
  | c :: cs, b, h => by
    have hf := startsList_false_of_head_ne p0 c ps (cs ++ ((p0 :: ps) ++ b)) (h c (by simp))
    rw [List.cons_append, findSub, hf]
    have ih := findSub_append_self p0 ps cs b (fun d hd => h d (by simp [hd]))
    rw [List.cons_append] at ih
    simp [ih]

theorem findSub_none_bt (s : Str) (h : ∀ c ∈ s, c ≠ backtick) :
    findSub s (lit "```") = none :=
  findSub_none_of_no_char backtick (lit "``") s h

theorem getLast?_append_lit_bt (a : Str) : (a ++ lit "```").getLast? = some backtick := by
  rw [List.getLast?_append_of_ne_nil _ (by decide : lit "```" ≠ ([] : Str))]
  decide

theorem triple_eq : lit "```" = [backtick, backtick, backtick] := by decide

theorem findSub_cons_none (pat : Str) (c : Char) (cs : Str)
    (h : findSub (c :: cs) pat = none) :
    startsList pat (c :: cs) = false ∧ findSub cs pat = none := by
  rw [findSub] at h
  by_cases hs : startsList pat (c :: cs) = true
  · rw [if_pos hs] at h
    exact Option.noConfusion h
  · rw [if_neg hs] at h
    refine ⟨by revert hs; cases startsList pat (c :: cs) <;> simp, ?_⟩
    cases hf : findSub cs pat with
    | none => rfl
    | some k =>
      rw [hf] at h
      simp at h

theorem startsList_bt_cons_false (p b : Str) (hb : ∀ c ∈ b, c ≠ backtick) :
    startsList (backtick :: p) b = false := by
  cases b with
  | nil => rfl
  | cons x xs => exact startsList_false_of_head_ne backtick x p xs (hb x (by simp))

theorem findSub_append_none_bt :
    ∀ a b : Str, findSub a (lit "```") = none → (∀ c ∈ b, c ≠ backtick) →
      findSub (a ++ b) (lit "```") = none
  | [], b, _, hb => by
    rw [List.nil_append]
    exact findSub_none_bt b hb
  | c :: cs, b, h, hb => by
    obtain ⟨hs, hrest⟩ := findSub_cons_none _ c cs h
    have hs' : startsList (lit "```") (c :: (cs ++ b)) = false := by
      rcases cs with _ | ⟨d, ds1⟩
      · rw [List.nil_append, triple_eq]
        simp [startsList, startsList_bt_cons_false [backtick] b hb]
      · rcases ds1 with _ | ⟨e, ds⟩
        · rw [triple_eq] at hs ⊢
          simp [startsList, startsList_bt_cons_false [] b hb, List.cons_append]
        · have heq : startsList (lit "```") (c :: ((d :: e :: ds) ++ b))
              = startsList (lit "```") (c :: d :: e :: ds) := by
            rw [triple_eq]
            rfl
          rw [heq]
          exact hs
    rw [List.cons_append, findSub]
    simp [hs', findSub_append_none_bt cs b hrest hb]

theorem mem_of_getLastSome : ∀ (l : Str) (x : Char), l.getLast? = some x → x ∈ l
  | [], _, h => by simp at h
  | [a], x, h => by
    simp at h
    simp [h]
  | a :: b :: l, x, h => by
    rw [List.getLast?_cons_cons] at h
    exact List.mem_cons_of_mem a (mem_of_getLastSome (b :: l) x h)

theorem findSub_append_triple :
    ∀ a b : Str, findSub a (lit "```") = none →
      (∀ x, a.getLast? = some x → x ≠ backtick) →
      findSub (a ++ (lit "```" ++ b)) (lit "```") = some a.length
  | [], b, _, _ => by
    rw [List.nil_append]
    exact findSub_self_prefix _ b (by decide)
  | c :: cs, b, h, hlast => by
    obtain ⟨hs, hrest⟩ := findSub_cons_none _ c cs h
    have hlast' : ∀ x, cs.getLast? = some x → x ≠ backtick := by
      intro x hx
      apply hlast x
      cases cs with
      | nil => simp at hx
      | cons d ds =>
        rw [List.getLast?_cons_cons]
        exact hx
    have ih := findSub_append_triple cs b hrest hlast'
    have hs' : startsList (lit "```") (c :: (cs ++ (lit "```" ++ b))) = false := by
      by_cases hc : c = backtick
      · subst hc
        rcases cs with _ | ⟨d, ds1⟩
        · exact absurd rfl (hlast backtick (by decide))
        · rcases ds1 with _ | ⟨e, ds⟩
          · have hd : d ≠ backtick := hlast d (by simp)
            have hd' : decide (backtick = d) = false :=
              decide_eq_false (fun hh => hd hh.symm)
            rw [triple_eq]
            simp [startsList, hd', List.cons_append]
          · have heq : startsList (lit "```")
                (backtick :: ((d :: e :: ds) ++ (lit "```" ++ b)))
                = startsList (lit "```") (backtick :: d :: e :: ds) := by
              rw [triple_eq]
              rfl
            rw [heq]
            exact hs
      · rw [triple_eq]
        exact startsList_false_of_head_ne backtick c [backtick, backtick] _ hc
    rw [List.cons_append, findSub]
    simp [hs', ih]

theorem getLast?_append_ws (core wsB : Str) (hcoreL : core.getLast? = some rbrace)
    (hwsB : ∀ c ∈ wsB, isPyWs c = true) :
    ∀ x, (core ++ wsB).getLast? = some x → x ≠ backtick := by
  intro x hx
  cases wsB with
  | nil =>
    rw [List.append_nil, hcoreL] at hx
    injection hx with hx'
    subst hx'
    decide
  | cons w ws =>
    rw [List.getLast?_append_of_ne_nil _ (by simp)] at hx
    have hmem : x ∈ w :: ws := mem_of_getLastSome (w :: ws) x hx
    have hws : isPyWs x = true := hwsB x hmem
    intro hxbt
    subst hxbt
    exact absurd hws (by decide)

theorem isPyWs_ne_bt (c : Char) (hc : isPyWs c = true) : c ≠ backtick := by
  intro h
  subst h
  exact absurd hc (by decide)

theorem isPyWs_ne_j (c : Char) (hc : isPyWs c = true) : c ≠ 'j' := by
  intro h
  subst h
  exact absurd hc (by decide)

theorem fenceSearch_step (fuel : Nat) (s : Str) (i k : Nat)
    (hfind : findSub s (lit "```") = some i)
    (hfind2 : findSub ((dropJsonTag (s.drop (i + 3))).dropWhile isPyWs) (lit "```") = some k) :
    fenceSearch (fuel + 1) s
      = some (((dropJsonTag (s.drop (i + 3))).dropWhile isPyWs).take k) := by
  rw [fenceSearch]
  simp only [hfind, hfind2]

theorem head?_append_left (a b : Str) (c : Char) (h : a.head? = some c) :
    (a ++ b).head? = some c := by
  cases a with
  | nil => simp at h
  | cons x xs => simpa using h

theorem dropWhile_head_neg (p : Char → Bool) (s : Str) (c : Char)
    (hh : s.head? = some c) (hc : p c = false) : s.dropWhile p = s := by
  cases s with
  | nil => rfl
  | cons x xs =>
    have hx : x = c := by simpa using hh
    subst hx
    exact dropWhile_cons_neg p x xs hc

theorem startsList_json_false (s : Str) (c : Char) (hh : s.head? = some c) (hc : c ≠ 'j') :
    startsList (lit "json") s = false := by
  cases s with
  | nil => simp at hh
  | cons x xs =>
    have hx : x = c := by simpa using hh
    subst hx
    exact startsList_false_of_head_ne 'j' x (lit "son") xs hc

theorem fenceSearch_structured (fuel : Nat) (lang ws3 core wsB : Str)
    (hlang : lang = [] ∨ lang = lit "json")
    (hws3 : ∀ c ∈ ws3, isPyWs c = true)
    (hwsB : ∀ c ∈ wsB, isPyWs c = true)
    (hcore0 : core.head? = some lbrace)
    (hcoreL : core.getLast? = some rbrace)
    (hcoreT : findSub core (lit "```") = none) :
    fenceSearch (fuel + 1)
        (lit "```" ++ (lang ++ (ws3 ++ (core ++ (wsB ++ lit "```")))))
      = some (core ++ wsB) := by
  have h1 : findSub (lit "```" ++ (lang ++ (ws3 ++ (core ++ (wsB ++ lit "```")))))
      (lit "```") = some 0 :=
    findSub_self_prefix _ _ (by decide)
  have h2 : (lit "```" ++ (lang ++ (ws3 ++ (core ++ (wsB ++ lit "```"))))).drop (0 + 3)
      = lang ++ (ws3 ++ (core ++ (wsB ++ lit "```"))) := by
    have h := List.drop_left (lit "```") (lang ++ (ws3 ++ (core ++ (wsB ++ lit "```"))))
    rw [show (lit "```").length = 0 + 3 from by decide] at h
    exact h
  have h3 : dropJsonTag (lang ++ (ws3 ++ (core ++ (wsB ++ lit "```"))))
      = ws3 ++ (core ++ (wsB ++ lit "```")) := by
    rcases hlang with h | h
    · subst h
      rw [List.nil_append]
      unfold dropJsonTag
      have hs : startsList (lit "json") (ws3 ++ (core ++ (wsB ++ lit "```"))) = false := by
        cases ws3 with
        | nil =>
          rw [List.nil_append]
          exact startsList_json_false _ lbrace (head?_append_left core _ lbrace hcore0)
            (by decide)
        | cons w ws =>
          exact startsList_json_false _ w (head?_append_left (w :: ws) _ w rfl)
            (isPyWs_ne_j w (hws3 w (by simp)))
      rw [if_neg (by simp [hs])]
    · subst h
      unfold dropJsonTag
      have hs : startsList (lit "json")
          (lit "json" ++ (ws3 ++ (core ++ (wsB ++ lit "```")))) = true :=
        startsList_append_self _ _
      rw [if_pos hs]
      have h := List.drop_left (lit "json") (ws3 ++ (core ++ (wsB ++ lit "```")))
      rw [show (lit "json").length = 4 from by decide] at h
      exact h
  have h4 : (ws3 ++ (core ++ (wsB ++ lit "```"))).dropWhile isPyWs
      = core ++ (wsB ++ lit "```") := by
    rw [dropWhile_append_all _ ws3 _ hws3]
    exact dropWhile_head_neg _ _ lbrace (head?_append_left core _ lbrace hcore0) (by decide)
  have h5 : findSub (core ++ (wsB ++ lit "```")) (lit "```")
      = some (core ++ wsB).length := by
    have hnone : findSub (core ++ wsB) (lit "```") = none :=
      findSub_append_none_bt core wsB hcoreT (fun c hc => isPyWs_ne_bt c (hwsB c hc))
    have h := findSub_append_triple (core ++ wsB) [] hnone
      (getLast?_append_ws core wsB hcoreL hwsB)
    rw [List.append_nil, List.append_assoc] at h
    exact h
  have hmid : (dropJsonTag ((lit "```"
      ++ (lang ++ (ws3 ++ (core ++ (wsB ++ lit "```"))))).drop (0 + 3))).dropWhile isPyWs
      = core ++ (wsB ++ lit "```") := by
    rw [h2, h3, h4]
  have hstep := fenceSearch_step fuel _ 0 (core ++ wsB).length h1 (by rw [hmid]; exact h5)
  rw [hstep, hmid, ← List.append_assoc, List.take_left]

theorem findSub_none_of_not_contains (s pat : Str) (h : containsSub s pat = false) :
    findSub s pat = none := by
  unfold containsSub at h
  cases hf : findSub s pat with
  | none => rfl
  | some k =>
    rw [hf] at h
    simp at h

/-- C3 counterexample: a bare valid JSON object whose string value
contains a backtick triple — the fence regex matches inside it, the
captured candidate "v" fails to parse, and the empty mapping is
returned instead of the strict parse of the object. -/
theorem parse_backtick_confusion :
    jsonLoads (lit "\x7b\"k\":\"```v```\"\x7d")
        = some (PyJson.objVal [(lit "k", PyJson.strVal (lit "```v```"))])
      ∧ parse_json_response (lit "\x7b\"k\":\"```v```\"\x7d") = PyJson.objVal []
      ∧ PyJson.objVal ([] : List (Str × PyJson))
          ≠ PyJson.objVal [(lit "k", PyJson.strVal (lit "```v```"))] := by
  refine ⟨rfl, rfl, ?_⟩
  intro h
  injection h with h'
  simp at h'

/-- C3 (amended): parse_json_response returns the strict JSON parse of
every input that is a valid JSON object — optionally wrapped in a
fenced code block (with or without a json language tag and with
optional whitespace inside the fence on either side of the object) and
surrounding whitespace — provided the object's text contains no
backtick triple; a triple inside the object is mistaken for a fence
delimiter, as the counterexample shows. -/
theorem parse_valid_object :
    (∀ ws1 ws2 core v,
      (∀ c ∈ ws1, isPyWs c = true) → (∀ c ∈ ws2, isPyWs c = true) →
      core.head? = some lbrace → core.getLast? = some rbrace →
      containsSub core (lit "```") = false →
      jsonLoads core = some v →
      parse_json_response (ws1 ++ core ++ ws2) = v)
    ∧ (∀ ws1 ws4 lang ws3 wsB core v,
      (∀ c ∈ ws1, isPyWs c = true) → (∀ c ∈ ws4, isPyWs c = true) →
      (lang = [] ∨ lang = lit "json") →
      (∀ c ∈ ws3, isPyWs c = true) → (∀ c ∈ wsB, isPyWs c = true) →
      core.head? = some lbrace → core.getLast? = some rbrace →
      containsSub core (lit "```") = false →
      jsonLoads core = some v →
      parse_json_response
        (ws1 ++ (lit "```" ++ (lang ++ (ws3 ++ (core ++ (wsB ++ lit "```"))))) ++ ws4)
        = v) := by
  constructor
  · intro ws1 ws2 core v hw1 hw2 hh hl hct hload
    have hbt := findSub_none_of_not_contains core (lit "```") hct
    have hstrip : pyStrip (ws1 ++ core ++ ws2) = core :=
      pyStrip_sandwich ws1 ws2 core lbrace rbrace hw1 hw2 hh (by decide) hl (by decide)
    have hcand : parseCandidate (ws1 ++ core ++ ws2) = core := by
      unfold parseCandidate
      rw [hstrip]
      have hfs : fenceSearch (core.length + 1) core = none := by
        rw [fenceSearch, hbt]
      rw [hfs]
    unfold parse_json_response
    rw [hcand, hload]
  · intro ws1 ws4 lang ws3 wsB core v hw1 hw4 hlang hws3 hwsB hh hl hct hload
    have hbt := findSub_none_of_not_contains core (lit "```") hct
    have hstrip : pyStrip
        (ws1 ++ (lit "```" ++ (lang ++ (ws3 ++ (core ++ (wsB ++ lit "```"))))) ++ ws4)
        = lit "```" ++ (lang ++ (ws3 ++ (core ++ (wsB ++ lit "```")))) := by
      apply pyStrip_sandwich ws1 ws4 _ backtick backtick hw1 hw4
      · rfl
      · decide
      · have hr : lit "```" ++ (lang ++ (ws3 ++ (core ++ (wsB ++ lit "```"))))
            = (lit "```" ++ lang ++ ws3 ++ core ++ wsB) ++ lit "```" := by
          simp [List.append_assoc]
        rw [hr]
        exact getLast?_append_lit_bt _
      · decide
    have hsw : pyStrip (core ++ wsB) = core := by
      have h := pyStrip_sandwich [] wsB core lbrace rbrace (by simp) hwsB
        hh (by decide) hl (by decide)
      rwa [List.nil_append] at h
    have hcand : parseCandidate
        (ws1 ++ (lit "```" ++ (lang ++ (ws3 ++ (core ++ (wsB ++ lit "```"))))) ++ ws4)
        = core := by
      unfold parseCandidate
      rw [hstrip, fenceSearch_structured _ lang ws3 core wsB hlang hws3 hwsB hh hl hbt]
      exact hsw
    unfold parse_json_response
    rw [hcand, hload]

/-- Witness for parse_valid_object: the canonical fenced form with a
newline before the closing fence parses to the object's mapping. -/
theorem parse_valid_object_witness :
    parse_json_response (lit "```json\n\x7b\"a\": 1\x7d\n```")
      = PyJson.objVal [(lit "a", PyJson.intVal 1)] := by
  have h := parse_valid_object.2 [] [] (lit "json") (lit "\n") (lit "\n")
    (lit "\x7b\"a\": 1\x7d") (PyJson.objVal [(lit "a", PyJson.intVal 1)])
    (by decide) (by decide) (Or.inr rfl) (by decide) (by decide) rfl rfl (by decide) rfl
  exact h

/-- Absence of both square-bracket characters. -/
def bfStr (s : Str) : Bool := s.all (fun c => !(c == '[') && !(c == ']'))

theorem bf_all_ne (s : Str) (h : bfStr s = true) :
    (∀ c ∈ s, c ≠ '[') ∧ (∀ c ∈ s, c ≠ ']') := by
  unfold bfStr at h
  rw [List.all_eq_true] at h
  constructor <;> intro c hc <;> have hx := h c hc <;>
    simp only [Bool.and_eq_true, Bool.not_eq_true', beq_eq_false_iff_ne] at hx
  · exact hx.1
  · exact hx.2

theorem noPairB_of_no_char (p q : Char) :
    ∀ s : Str, (∀ c ∈ s, c ≠ p) → noPairB p q s = true
  | [], _ => rfl
  | [_], _ => rfl
  | c :: d :: rest, h => by
    have hc : ¬(c = p ∧ d = q) := fun ⟨h1, _⟩ => (h c (by simp)) h1
    rw [noPairB, if_neg hc]
    exact noPairB_of_no_char p q (d :: rest) (fun e he => h e (by simp [he]))

theorem noPairB_append (p q : Char) :
    ∀ a b : Str, noPairB p q a = true → noPairB p q b = true →
      ¬(a.getLast? = some p ∧ b.head? = some q) → noPairB p q (a ++ b) = true
  | [], b, _, hb, _ => by simpa using hb
  | [c], b, _, hb, h => by
    cases b with
    | nil => rfl
    | cons d bs =>
      have hcd : ¬(c = p ∧ d = q) := fun ⟨h1, h2⟩ => h ⟨by simp [h1], by simp [h2]⟩
      rw [List.cons_append, List.nil_append]
      show (if c = p ∧ d = q then false else noPairB p q (d :: bs)) = true
      rw [if_neg hcd]
      exact hb
  | c :: d :: rest, b, ha, hb, h => by
    by_cases hcd : c = p ∧ d = q
    · rw [noPairB, if_pos hcd] at ha
      exact absurd ha (by simp)
    · rw [noPairB, if_neg hcd] at ha
      have hdr : ¬((d :: rest).getLast? = some p ∧ b.head? = some q) := by
        intro ⟨h1, h2⟩
        exact h ⟨by simpa [List.getLast?_cons_cons] using h1, h2⟩
      have ih := noPairB_append p q (d :: rest) b ha hb hdr
      rw [List.cons_append] at ih
      rw [List.cons_append, List.cons_append]
      show (if c = p ∧ d = q then false else noPairB p q (d :: (rest ++ b))) = true
      rw [if_neg hcd]
      exact ih

/-- Absence of either marker delimiter pair. -/
def noMarkers (s : Str) : Prop :=
  noPairB '[' '[' s = true ∧ noPairB ']' ']' s = true

instance instDecNoMarkers : DecidablePred noMarkers := fun s =>
  decidable_of_iff (noPairB '[' '[' s = true ∧ noPairB ']' ']' s = true) Iff.rfl

/-- Well-formed rendered markup for the no-marker argument: no marker
pair anywhere, and — unless empty — starting and ending with angle
brackets, so that concatenations cannot create a pair across a
boundary. -/
def okHtml (s : Str) : Prop :=
  noMarkers s ∧ (s = [] ∨ (s.head? = some '<' ∧ s.getLast? = some '>'))

theorem okHtml_empty : okHtml [] := ⟨⟨rfl, rfl⟩, Or.inl rfl⟩

theorem okHtml_append (a b : Str) (ha : okHtml a) (hb : okHtml b) : okHtml (a ++ b) := by
  obtain ⟨⟨ha1, ha2⟩, hae⟩ := ha
  obtain ⟨⟨hb1, hb2⟩, hbe⟩ := hb
  rcases hae with rfl | ⟨hah, hal⟩
  · rw [List.nil_append]
    exact ⟨⟨hb1, hb2⟩, hbe⟩
  · rcases hbe with rfl | ⟨hbh, hbl⟩
    · rw [List.append_nil]
      exact ⟨⟨ha1, ha2⟩, Or.inr ⟨hah, hal⟩⟩
    · have hbne : b ≠ [] := by
        intro he
        subst he
        simp at hbh
      refine ⟨⟨noPairB_append _ _ a b ha1 hb1 ?_, noPairB_append _ _ a b ha2 hb2 ?_⟩,
        Or.inr ⟨head?_append_left a b '<' hah, ?_⟩⟩
      · intro ⟨h1, _⟩
        rw [hal] at h1
        simp at h1
      · intro ⟨h1, _⟩
        rw [hal] at h1
        simp at h1
      · rw [List.getLast?_append_of_ne_nil _ hbne]
        exact hbl

theorem okHtml_flatten : ∀ l : List Str, (∀ x ∈ l, okHtml x) → okHtml l.flatten
  | [], _ => okHtml_empty
  | x :: rest, h => by
    rw [List.flatten_cons]
    exact okHtml_append _ _ (h x (by simp))
      (okHtml_flatten rest (fun y hy => h y (by simp [hy])))

theorem tagOpen_last (t : String) : ((lit "<" ++ lit t) ++ lit ">").getLast? = some '>' :=
  getLast?_append_lit_gt _

theorem noMarkers_of_bf (s : Str) (h : bfStr s = true) : noMarkers s :=
  ⟨noPairB_of_no_char _ _ s (bf_all_ne s h).1, noPairB_of_no_char _ _ s (bf_all_ne s h).2⟩

theorem bf_append (a b : Str) (ha : bfStr a = true) (hb : bfStr b = true) :
    bfStr (a ++ b) = true := by
  unfold bfStr at *
  rw [List.all_append, ha, hb]
  rfl

theorem okHtml_tag (t : String) (content : Str) (hbf : bfStr (lit t) = true)
    (hc : noMarkers content) : okHtml (tag t content) := by
  have hopen : bfStr ((lit "<" ++ lit t) ++ lit ">") = true :=
    bf_append _ _ (bf_append _ _ (by decide) hbf) (by decide)
  have hclose : bfStr ((lit "</" ++ lit t) ++ lit ">") = true :=
    bf_append _ _ (bf_append _ _ (by decide) hbf) (by decide)
  have hcloseh : (((lit "</" ++ lit t) ++ lit ">")).head? = some '<' :=
    head?_append_left _ _ '<' (head?_append_left _ _ '<' rfl)
  have hnp : ∀ p q : Char, p ≠ '>' → q ≠ '<' →
      noPairB p q content = true →
      (∀ c ∈ (lit "<" ++ lit t) ++ lit ">", c ≠ p) →
      (∀ c ∈ (lit "</" ++ lit t) ++ lit ">", c ≠ p) →
      noPairB p q (tag t content) = true := by
    intro p q hp hq hcnp hop hcl
    unfold tag
    apply noPairB_append
    · apply noPairB_append
      · exact noPairB_of_no_char _ _ _ hop
      · exact hcnp
      · intro ⟨h1, _⟩
        rw [tagOpen_last] at h1
        exact hp (Option.some.inj h1).symm
    · exact noPairB_of_no_char _ _ _ hcl
    · intro ⟨_, h2⟩
      rw [hcloseh] at h2
      exact hq (Option.some.inj h2).symm
  refine ⟨⟨?_, ?_⟩, Or.inr ⟨tag_head t content, tag_last t content⟩⟩
  · exact hnp '[' '[' (by decide) (by decide) hc.1 (bf_all_ne _ hopen).1 (bf_all_ne _ hclose).1
  · exact hnp ']' ']' (by decide) (by decide) hc.2 (bf_all_ne _ hopen).2 (bf_all_ne _ hclose).2

/-- The strings a subsection interpolates into the template. -/
def subStrs (s : PyJson) : List Str :=
  fieldStr s (lit "title") :: (listField s (lit "bullets")).map pyFStr

/-- The strings an entry interpolates into the template. -/
def entryStrs (e : PyJson) : List Str :=
  fieldStr e (lit "left_primary") :: fieldStr e (lit "right_primary")
    :: fieldStr e (lit "left_secondary") :: fieldStr e (lit "right_secondary")
    :: ((listField e (lit "subsections")).flatMap subStrs
      ++ (listField e (lit "bullets")).map pyFStr)

/-- The strings a section interpolates into the template (over all kind
branches). -/
def sectionStrs (s : PyJson) : List Str :=
  fieldStr s (lit "title") :: fieldStr s (lit "content")
    :: ((listField s (lit "entries")).flatMap entryStrs
      ++ (listField s (lit "lines")).map pyFStr)

/-- Every string the template interpolates for a document. -/
def docStrs (data : List (Str × PyJson)) : List Str :=
  pyFStr (dictGetD data (lit "name") (.strVal []))
    :: pyFStr (dictGetD data (lit "contact_line") (.strVal []))
    :: (sectionsOf data).flatMap sectionStrs

theorem okHtml_bullets (bs : List PyJson) (h : ∀ b ∈ bs, noMarkers (pyFStr b)) :
    okHtml (bulletsHtml bs) := by
  unfold bulletsHtml
  apply okHtml_flatten
  intro x hx
  obtain ⟨b, hb, rfl⟩ := List.mem_map.mp hx
  exact okHtml_tag _ _ (by decide) (h b hb)

theorem okHtml_subsection (s : PyJson) (h : ∀ x ∈ subStrs s, noMarkers x) :
    okHtml (subsectionHtml s) := by
  unfold subsectionHtml
  apply okHtml_append
  · exact okHtml_tag _ _ (by decide) (h _ (by simp [subStrs]))
  · refine okHtml_tag _ _ (by decide) ?_
    exact (okHtml_bullets _ (fun b hb => h _ (by simp [subStrs, List.mem_map]; right; exact ⟨b, hb, rfl⟩))).1

theorem okHtml_entry (e : PyJson) (h : ∀ x ∈ entryStrs e, noMarkers x) :
    okHtml (entryHtml e) := by
  unfold entryHtml
  apply okHtml_append
  · apply okHtml_append
    · apply okHtml_append
      · apply okHtml_tag _ _ (by decide)
        refine (okHtml_append _ _ ?_ ?_).1
        · exact okHtml_tag _ _ (by decide) (h _ (by simp [entryStrs]))
        · exact okHtml_tag _ _ (by decide) (h _ (by simp [entryStrs]))
      · apply okHtml_tag _ _ (by decide)
        refine (okHtml_append _ _ ?_ ?_).1
        · exact okHtml_tag _ _ (by decide) (h _ (by simp [entryStrs]))
        · exact okHtml_tag _ _ (by decide) (h _ (by simp [entryStrs]))
    · apply okHtml_flatten
      intro x hx
      obtain ⟨sub, hsub, rfl⟩ := List.mem_map.mp hx
      apply okHtml_subsection
      intro y hy
      apply h
      simp only [entryStrs, List.mem_cons, List.mem_append]
      right; right; right; right; left
      exact List.mem_flatMap.mpr ⟨sub, hsub, hy⟩
  · apply okHtml_tag _ _ (by decide)
    refine (okHtml_bullets _ ?_).1
    intro b hb
    apply h
    simp only [entryStrs, List.mem_cons, List.mem_append]
    right; right; right; right; right
    exact List.mem_map.mpr ⟨b, hb, rfl⟩

theorem okHtml_section (s : PyJson) (h : ∀ x ∈ sectionStrs s, noMarkers x) :
    okHtml (sectionBlock s) := by
  unfold sectionBlock
  apply okHtml_tag _ _ (by decide)
  refine (okHtml_append _ _ (okHtml_tag _ _ (by decide) (h _ (by simp [sectionStrs]))) ?_).1
  split
  · split
    · split
      · exact okHtml_tag _ _ (by decide) (h _ (by simp [sectionStrs]))
      · split
        · apply okHtml_flatten
          intro x hx
          obtain ⟨e, he, rfl⟩ := List.mem_map.mp hx
          apply okHtml_entry
          intro y hy
          apply h
          simp only [sectionStrs, List.mem_cons, List.mem_append]
          right; right; left
          rename_i kvs _ _ _
          exact List.mem_flatMap.mpr ⟨e, by simpa [listField] using he, hy⟩
        · split
          · apply okHtml_tag _ _ (by decide)
            refine (okHtml_bullets _ ?_).1
            intro b hb
            apply h
            simp only [sectionStrs, List.mem_cons, List.mem_append]
            right; right; right
            rename_i kvs _ _ _ _
            exact List.mem_map.mpr ⟨b, by simpa [listField] using hb, rfl⟩
          · exact okHtml_empty
    · exact okHtml_empty
  · exact okHtml_empty

theorem okHtml_template (data : List (Str × PyJson))
    (h : ∀ x ∈ docStrs data, noMarkers x) : okHtml (templateRender data) := by
  unfold templateRender
  apply okHtml_append
  · apply okHtml_append
    · unfold headerPiece
      apply okHtml_append
      · exact ⟨noMarkers_of_bf _ (by decide), Or.inr ⟨rfl, by decide⟩⟩
      · apply okHtml_tag _ _ (by decide)
        refine (okHtml_append _ _ ?_ ?_).1
        · exact okHtml_tag _ _ (by decide) (h _ (by simp [docStrs]))
        · exact okHtml_tag _ _ (by decide) (h _ (by simp [docStrs]))
    · apply okHtml_flatten
      intro x hx
      obtain ⟨sec, hsec, rfl⟩ := List.mem_map.mp hx
      apply okHtml_section
      intro y hy
      apply h
      simp only [docStrs, List.mem_cons]
      right; right
      exact List.mem_flatMap.mpr ⟨sec, hsec, hy⟩
  · exact ⟨noMarkers_of_bf _ (by decide), Or.inr ⟨rfl, by decide⟩⟩

/-- C9 (amended): a document none of whose interpolated strings — the
name, the contact line, and every section's title, content, entry
columns, subsection titles, bullets, and lines — contains an opening or
closing marker pair renders byte-identically under both highlight
settings.  (Amended because a marker pair in a section title, a field
the claim's list omits, also reaches the output and breaks the
round-trip, as the counterexample shows; the section layouts come from
the spec-modelled template.) -/
theorem render_no_marker_invariance (data : List (Str × PyJson))
    (h : ∀ x ∈ docStrs data, noMarkers x) :
    render_resume_html data true = render_resume_html data false := by
  obtain ⟨⟨h1, h2⟩, _⟩ := okHtml_template data h
  unfold render_resume_html
  show replace2 ']' ']' spanClose (replace2 '[' '[' spanOpen (templateRender data))
    = replace2 ']' ']' [] (replace2 '[' '[' [] (templateRender data))
  rw [replace2_self '[' '[' spanOpen _ h1, replace2_self ']' ']' spanClose _ h2,
    replace2_self '[' '[' [] _ h1, replace2_self ']' ']' [] _ h2]

/-- C9 counterexample: a document whose only marker pair sits in a
section title — a field outside the claim's list — renders differently
under the two highlight settings, so the claimed field list is
incomplete. -/
theorem render_title_marker_differs :
    render_resume_html
        [(lit "sections", PyJson.arrVal
          [PyJson.objVal [(lit "title", PyJson.strVal (lit "[[T]]"))]])] true
      ≠ render_resume_html
        [(lit "sections", PyJson.arrVal
          [PyJson.objVal [(lit "title", PyJson.strVal (lit "[[T]]"))]])] false := by
  decide

/-- Witness for render_no_marker_invariance at a small document with a
text section free of markers. -/
theorem render_no_marker_invariance_witness :
    render_resume_html [(lit "name", PyJson.strVal (lit "Ann")),
        (lit "sections", PyJson.arrVal [PyJson.objVal
          [(lit "title", PyJson.strVal (lit "Profile")),
           (lit "type", PyJson.strVal (lit "text")),
           (lit "content", PyJson.strVal (lit "Builder."))]])] true
      = render_resume_html [(lit "name", PyJson.strVal (lit "Ann")),
        (lit "sections", PyJson.arrVal [PyJson.objVal
          [(lit "title", PyJson.strVal (lit "Profile")),
           (lit "type", PyJson.strVal (lit "text")),
           (lit "content", PyJson.strVal (lit "Builder."))]])] false :=
  render_no_marker_invariance _ (by decide)

/-- Well-bracketed marked segments: each pair is a bracket-free plain
prefix and a bracket-free marked span. -/
def bfSegs (segs : List (Str × Str)) : Bool :=
  segs.all (fun pm => bfStr pm.1 && bfStr pm.2)

/-- A string interleaving plain text with marker-delimited spans,
ending in a bracket-free tail. -/
def buildMarks : List (Str × Str) → Str → Str
  | [], t => t
  | (pre, m) :: rest, t => pre ++ (lit "[[" ++ (m ++ (lit "]]" ++ buildMarks rest t)))

/-- The same interleaving with the delimiters replaced by the given
opening and closing strings. -/
def markCat (o c : Str) : List (Str × Str) → Str → Str
  | [], t => t
  | (pre, m) :: rest, t => pre ++ (o ++ (m ++ (c ++ markCat o c rest t)))

/-- Intermediate form after the opening-delimiter replacement only. -/
def buildOpen (o : Str) : List (Str × Str) → Str → Str
  | [], t => t
  | (pre, m) :: rest, t => pre ++ (o ++ (m ++ (lit "]]" ++ buildOpen o rest t)))

theorem replace2_pass (p q : Char) (rep : Str) :
    ∀ a b : Str, (∀ c ∈ a, c ≠ p) →
      replace2 p q rep (a ++ b) = a ++ replace2 p q rep b
  | [], _, _ => by simp
  | [c], b, h => by
    cases b with
    | nil => simp [replace2]
    | cons d bs =>
      have hc : ¬(c = p ∧ d = q) := fun ⟨h1, _⟩ => (h c (by simp)) h1
      simp only [List.cons_append, List.nil_append, replace2, if_neg hc]
  | c :: c2 :: rest, b, h => by
    have hc : ¬(c = p ∧ c2 = q) := fun ⟨h1, _⟩ => (h c (by simp)) h1
    have ih := replace2_pass p q rep (c2 :: rest) b
      (fun d hd => h d (List.mem_cons_of_mem _ hd))
    simp only [List.cons_append] at ih
    simp only [List.cons_append, replace2, if_neg hc, List.append_eq, ih]

theorem replace2_consume (p q : Char) (rep : Str) (x : Str) :
    replace2 p q rep (p :: q :: x) = rep ++ replace2 p q rep x := by
  simp [replace2]

theorem replace2_id_of_no_char (p q : Char) (rep : Str) (s : Str) (h : ∀ c ∈ s, c ≠ p) :
    replace2 p q rep s = s := by
  have hx := replace2_pass p q rep s [] h
  simpa [replace2] using hx

theorem bfSegs_cons (pre m : Str) (rest : List (Str × Str)) (h : bfSegs ((pre, m) :: rest) = true) :
    bfStr pre = true ∧ bfStr m = true ∧ bfSegs rest = true := by
  unfold bfSegs at h ⊢
  rw [List.all_cons, Bool.and_eq_true, Bool.and_eq_true] at h
  exact ⟨h.1.1, h.1.2, h.2⟩

theorem replace2_open_build (o : Str) :
    ∀ segs t, bfSegs segs = true → bfStr t = true →
      replace2 '[' '[' o (buildMarks segs t) = buildOpen o segs t
  | [], t, _, ht => replace2_id_of_no_char _ _ _ t (bf_all_ne t ht).1
  | (pre, m) :: rest, t, hsegs, ht => by
    obtain ⟨hpre, hm, hrest⟩ := bfSegs_cons pre m rest hsegs
    show replace2 '[' '[' o (pre ++ (lit "[[" ++ (m ++ (lit "]]" ++ buildMarks rest t))))
      = pre ++ (o ++ (m ++ (lit "]]" ++ buildOpen o rest t)))
    rw [replace2_pass _ _ _ pre _ (bf_all_ne pre hpre).1,
      show lit "[[" ++ (m ++ (lit "]]" ++ buildMarks rest t))
        = '[' :: '[' :: (m ++ (lit "]]" ++ buildMarks rest t)) from rfl,
      replace2_consume,
      replace2_pass _ _ _ m _ (bf_all_ne m hm).1,
      replace2_pass _ _ _ (lit "]]") _ (by decide),
      replace2_open_build o rest t hrest ht]

theorem replace2_close_build (o c : Str) (ho : ∀ ch ∈ o, ch ≠ ']') :
    ∀ segs t, bfSegs segs = true → bfStr t = true →
      replace2 ']' ']' c (buildOpen o segs t) = markCat o c segs t
  | [], t, _, ht => replace2_id_of_no_char _ _ _ t (bf_all_ne t ht).2
  | (pre, m) :: rest, t, hsegs, ht => by
    obtain ⟨hpre, hm, hrest⟩ := bfSegs_cons pre m rest hsegs
    show replace2 ']' ']' c (pre ++ (o ++ (m ++ (lit "]]" ++ buildOpen o rest t))))
      = pre ++ (o ++ (m ++ (c ++ markCat o c rest t)))
    rw [replace2_pass _ _ _ pre _ (bf_all_ne pre hpre).2,
      replace2_pass _ _ _ o _ ho,
      replace2_pass _ _ _ m _ (bf_all_ne m hm).2,
      show lit "]]" ++ buildOpen o rest t = ']' :: ']' :: buildOpen o rest t from rfl,
      replace2_consume,
      replace2_close_build o c ho rest t hrest ht]

theorem markerTransform_build (hl : Bool) (segs : List (Str × Str)) (t : Str)
    (hsegs : bfSegs segs = true) (ht : bfStr t = true) :
    markerTransform hl (buildMarks segs t)
      = markCat (if hl then spanOpen else []) (if hl then spanClose else []) segs t := by
  cases hl with
  | true =>
    show replace2 ']' ']' spanClose (replace2 '[' '[' spanOpen (buildMarks segs t))
      = markCat spanOpen spanClose segs t
    rw [replace2_open_build spanOpen segs t hsegs ht,
      replace2_close_build spanOpen spanClose (by decide) segs t hsegs ht]
  | false =>
    show replace2 ']' ']' [] (replace2 '[' '[' [] (buildMarks segs t))
      = markCat [] [] segs t
    rw [replace2_open_build [] segs t hsegs ht,
      replace2_close_build [] [] (by simp) segs t hsegs ht]

theorem bf_markCat_plain : ∀ segs t, bfSegs segs = true → bfStr t = true →
    bfStr (markCat [] [] segs t) = true
  | [], t, _, ht => ht
  | (pre, m) :: rest, t, hsegs, ht => by
    obtain ⟨hpre, hm, hrest⟩ := bfSegs_cons pre m rest hsegs
    show bfStr (pre ++ ([] ++ (m ++ ([] ++ markCat [] [] rest t)))) = true
    rw [List.nil_append, List.nil_append]
    exact bf_append _ _ hpre (bf_append _ _ hm (bf_markCat_plain rest t hrest ht))

/-- A string whose square brackets occur only as well-formed marker
pairs around bracket-free spans. -/
def WellMarked (s : Str) : Prop :=
  ∃ segs t, bfSegs segs = true ∧ bfStr t = true ∧ s = buildMarks segs t

theorem wm_of_bf (s : Str) (h : bfStr s = true) : WellMarked s := ⟨[], s, rfl, h, rfl⟩

theorem buildMarks_append : ∀ (sa : List (Str × Str)) (ta : Str) (sb : List (Str × Str)) (tb : Str),
    bfSegs sa = true → bfStr ta = true → bfSegs sb = true → bfStr tb = true →
    ∃ s t, bfSegs s = true ∧ bfStr t = true
      ∧ buildMarks sa ta ++ buildMarks sb tb = buildMarks s t
  | [], ta, [], tb, _, hta, _, htb => ⟨[], ta ++ tb, rfl, bf_append _ _ hta htb, rfl⟩
  | [], ta, (pre, m) :: rest, tb, _, hta, hsb, htb => by
    obtain ⟨hpre, hm, hrest⟩ := bfSegs_cons pre m rest hsb
    refine ⟨(ta ++ pre, m) :: rest, tb, ?_, htb, ?_⟩
    · unfold bfSegs at hrest ⊢
      rw [List.all_cons, Bool.and_eq_true, Bool.and_eq_true]
      exact ⟨⟨bf_append _ _ hta hpre, hm⟩, hrest⟩
    · show ta ++ (pre ++ (lit "[[" ++ (m ++ (lit "]]" ++ buildMarks rest tb))))
        = (ta ++ pre) ++ (lit "[[" ++ (m ++ (lit "]]" ++ buildMarks rest tb)))
      rw [List.append_assoc]
  | (pre, m) :: rest, ta, sb, tb, hsa, hta, hsb, htb => by
    obtain ⟨hpre, hm, hrest⟩ := bfSegs_cons pre m rest hsa
    obtain ⟨s', t', hs', ht', heq⟩ := buildMarks_append rest ta sb tb hrest hta hsb htb
    refine ⟨(pre, m) :: s', t', ?_, ht', ?_⟩
    · unfold bfSegs at hs' ⊢
      rw [List.all_cons, Bool.and_eq_true, Bool.and_eq_true]
      exact ⟨⟨hpre, hm⟩, hs'⟩
    · show (pre ++ (lit "[[" ++ (m ++ (lit "]]" ++ buildMarks rest ta)))) ++ buildMarks sb tb
        = pre ++ (lit "[[" ++ (m ++ (lit "]]" ++ buildMarks s' t')))
      rw [← heq]
      simp [List.append_assoc]

theorem wm_append (a b : Str) (ha : WellMarked a) (hb : WellMarked b) :
    WellMarked (a ++ b) := by
  obtain ⟨sa, ta, hsa, hta, rfl⟩ := ha
  obtain ⟨sb, tb, hsb, htb, rfl⟩ := hb
  obtain ⟨s, t, hs, ht, heq⟩ := buildMarks_append sa ta sb tb hsa hta hsb htb
  exact ⟨s, t, hs, ht, heq⟩

theorem wm_flatten : ∀ l : List Str, (∀ x ∈ l, WellMarked x) → WellMarked l.flatten
  | [], _ => wm_of_bf [] rfl
  | x :: rest, h => by
    rw [List.flatten_cons]
    exact wm_append _ _ (h x (by simp))
      (wm_flatten rest (fun y hy => h y (by simp [hy])))

theorem wm_tag (t : String) (content : Str) (hbf : bfStr (lit t) = true)
    (hc : WellMarked content) : WellMarked (tag t content) := by
  unfold tag
  exact wm_append _ _
    (wm_append _ _ (wm_of_bf _ (bf_append _ _ (bf_append _ _ (by decide) hbf) (by decide))) hc)
    (wm_of_bf _ (bf_append _ _ (bf_append _ _ (by decide) hbf) (by decide)))

theorem wm_bullets (bs : List PyJson) (h : ∀ b ∈ bs, WellMarked (pyFStr b)) :
    WellMarked (bulletsHtml bs) := by
  unfold bulletsHtml
  apply wm_flatten
  intro x hx
  obtain ⟨b, hb, rfl⟩ := List.mem_map.mp hx
  exact wm_tag _ _ (by decide) (h b hb)

theorem wm_subsection (s : PyJson) (h : ∀ x ∈ subStrs s, WellMarked x) :
    WellMarked (subsectionHtml s) := by
  unfold subsectionHtml
  apply wm_append
  · exact wm_tag _ _ (by decide) (h _ (by simp [subStrs]))
  · refine wm_tag _ _ (by decide) ?_
    apply wm_bullets
    intro b hb
    apply h
    simp only [subStrs, List.mem_cons]
    right
    exact List.mem_map.mpr ⟨b, hb, rfl⟩

theorem wm_entry (e : PyJson) (h : ∀ x ∈ entryStrs e, WellMarked x) :
    WellMarked (entryHtml e) := by
  unfold entryHtml
  apply wm_append
  · apply wm_append
    · apply wm_append
      · apply wm_tag _ _ (by decide)
        apply wm_append
        · exact wm_tag _ _ (by decide) (h _ (by simp [entryStrs]))
        · exact wm_tag _ _ (by decide) (h _ (by simp [entryStrs]))
      · apply wm_tag _ _ (by decide)
        apply wm_append
        · exact wm_tag _ _ (by decide) (h _ (by simp [entryStrs]))
        · exact wm_tag _ _ (by decide) (h _ (by simp [entryStrs]))
    · apply wm_flatten
      intro x hx
      obtain ⟨sub, hsub, rfl⟩ := List.mem_map.mp hx
      apply wm_subsection
      intro y hy
      apply h
      simp only [entryStrs, List.mem_cons, List.mem_append]
      right; right; right; right; left
      exact List.mem_flatMap.mpr ⟨sub, hsub, hy⟩
  · apply wm_tag _ _ (by decide)
    apply wm_bullets
    intro b hb
    apply h
    simp only [entryStrs, List.mem_cons, List.mem_append]
    right; right; right; right; right
    exact List.mem_map.mpr ⟨b, hb, rfl⟩

theorem wm_section (s : PyJson) (h : ∀ x ∈ sectionStrs s, WellMarked x) :
    WellMarked (sectionBlock s) := by
  unfold sectionBlock
  apply wm_tag _ _ (by decide)
  apply wm_append
  · exact wm_tag _ _ (by decide) (h _ (by simp [sectionStrs]))
  · split
    · split
      · split
        · exact wm_tag _ _ (by decide) (h _ (by simp [sectionStrs]))
        · split
          · apply wm_flatten
            intro x hx
            obtain ⟨e, he, rfl⟩ := List.mem_map.mp hx
            apply wm_entry
            intro y hy
            apply h
            simp only [sectionStrs, List.mem_cons, List.mem_append]
            right; right; left
            rename_i kvs _ _ _
            exact List.mem_flatMap.mpr ⟨e, by simpa [listField] using he, hy⟩
          · split
            · apply wm_tag _ _ (by decide)
              apply wm_bullets
              intro b hb
              apply h
              simp only [sectionStrs, List.mem_cons, List.mem_append]
              right; right; right
              rename_i kvs _ _ _ _
              exact List.mem_map.mpr ⟨b, by simpa [listField] using hb, rfl⟩
            · exact wm_of_bf [] rfl
      · exact wm_of_bf [] rfl
    · exact wm_of_bf [] rfl

theorem wm_template (data : List (Str × PyJson))
    (h : ∀ x ∈ docStrs data, WellMarked x) : WellMarked (templateRender data) := by
  unfold templateRender
  apply wm_append
  · apply wm_append
    · unfold headerPiece
      apply wm_append
      · exact wm_of_bf _ (by decide)
      · apply wm_tag _ _ (by decide)
        apply wm_append
        · exact wm_tag _ _ (by decide) (h _ (by simp [docStrs]))
        · exact wm_tag _ _ (by decide) (h _ (by simp [docStrs]))
    · apply wm_flatten
      intro x hx
      obtain ⟨sec, hsec, rfl⟩ := List.mem_map.mp hx
      apply wm_section
      intro y hy
      apply h
      simp only [docStrs, List.mem_cons]
      right; right
      exact List.mem_flatMap.mpr ⟨sec, hsec, hy⟩
  · exact wm_of_bf _ (by decide)

theorem findSub_none_ob (s : Str) (h : ∀ c ∈ s, c ≠ '[') : findSub s (lit "[[") = none :=
  findSub_none_of_no_char '[' (lit "[") s h

theorem findSub_none_cb (s : Str) (h : ∀ c ∈ s, c ≠ ']') : findSub s (lit "]]") = none :=
  findSub_none_of_no_char ']' (lit "]") s h

set_option maxRecDepth 20000 in
/-- C7 (amended): for well-bracketed marked text — bracket-free spans
delimited by marker pairs — render's transform removes every delimiter
without highlighting, leaving the enclosed text in place and an output
free of square brackets, and with highlighting substitutes the opening
span tag for every opening delimiter and the closing tag for every
closing one, wrapping exactly the marked substrings; consequently a
document whose interpolated strings are all well-bracketed renders
without any leftover delimiter pair.  (Amended because ill-bracketed
text such as "[]][" leaves an opening pair behind after stripping, as
the counterexample shows; the spec's own example is verified in the
last conjunct.) -/
theorem render_marker_transform :
    (∀ segs t, bfSegs segs = true → bfStr t = true →
      markerTransform false (buildMarks segs t) = markCat [] [] segs t
      ∧ bfStr (markCat [] [] segs t) = true
      ∧ markerTransform true (buildMarks segs t) = markCat spanOpen spanClose segs t)
    ∧ (∀ data : List (Str × PyJson), (∀ x ∈ docStrs data, WellMarked x) →
      containsSub (render_resume_html data false) (lit "[[") = false
      ∧ containsSub (render_resume_html data false) (lit "]]") = false)
    ∧ (containsSub (render_resume_html
        [(lit "sections", PyJson.arrVal [PyJson.objVal
          [(lit "title", PyJson.strVal (lit "Experience")),
           (lit "type", PyJson.strVal (lit "text")),
           (lit "content", PyJson.strVal (lit "Drove [[end-to-end strategy]] for growth"))]])]
        false) (lit "Drove end-to-end strategy for growth") = true
      ∧ containsSub (render_resume_html
        [(lit "sections", PyJson.arrVal [PyJson.objVal
          [(lit "title", PyJson.strVal (lit "Experience")),
           (lit "type", PyJson.strVal (lit "text")),
           (lit "content", PyJson.strVal (lit "Drove [[end-to-end strategy]] for growth"))]])]
        false) (lit "[") = false
      ∧ containsSub (render_resume_html
        [(lit "sections", PyJson.arrVal [PyJson.objVal
          [(lit "title", PyJson.strVal (lit "Experience")),
           (lit "type", PyJson.strVal (lit "text")),
           (lit "content", PyJson.strVal (lit "Drove [[end-to-end strategy]] for growth"))]])]
        true) (spanOpen ++ (lit "end-to-end strategy" ++ spanClose)) = true) := by
  refine ⟨?_, ?_, by decide, by decide, by decide⟩
  · intro segs t hsegs ht
    exact ⟨markerTransform_build false segs t hsegs ht,
      bf_markCat_plain segs t hsegs ht,
      markerTransform_build true segs t hsegs ht⟩
  · intro data h
    obtain ⟨segs, t, hsegs, ht, heq⟩ := wm_template data h
    unfold render_resume_html
    rw [heq, markerTransform_build false segs t hsegs ht,
      show (if false = true then spanOpen else ([] : Str)) = ([] : Str) from rfl,
      show (if false = true then spanClose else ([] : Str)) = ([] : Str) from rfl]
    have hbf := bf_markCat_plain segs t hsegs ht
    constructor
    · unfold containsSub
      rw [findSub_none_ob _ (bf_all_ne _ hbf).1]
      rfl
    · unfold containsSub
      rw [findSub_none_cb _ (bf_all_ne _ hbf).2]
      rfl

/-- C7 counterexample: a section content of ill-bracketed text leaves
an opening marker pair in the no-highlight rendering — removing the
closing pair juxtaposes the stray brackets — so the output is not free
of delimiters as the claim states for every document. -/
theorem render_strip_leaves_pair :
    containsSub (render_resume_html
      [(lit "sections", PyJson.arrVal [PyJson.objVal
        [(lit "title", PyJson.strVal (lit "T")),
         (lit "type", PyJson.strVal (lit "text")),
         (lit "content", PyJson.strVal (lit "[]]["))]])] false) (lit "[[") = true := by
  decide

/-- Witness for render_marker_transform at the spec's example content. -/
theorem render_marker_transform_witness :
    markerTransform false
        (buildMarks [(lit "Drove ", lit "end-to-end strategy")] (lit " for growth"))
      = markCat [] [] [(lit "Drove ", lit "end-to-end strategy")] (lit " for growth") :=
  (render_marker_transform.1 [(lit "Drove ", lit "end-to-end strategy")]
    (lit " for growth") (by decide) (by decide)).1
